import Mathlib

/-!
Verification development for the swarm orchestration core of this repository
(`packages/agent-core/src/orchestration/swarm-routing.ts` and
`packages/agent-core/src/orchestration/swarm-orchestrator.ts`).

The TypeScript source is shallowly embedded as executable Lean definitions:

* pure functions (`selectSwarmRoute`, `buildPlan`, `estimateTokens`,
  `isTransientError`) become Lean functions over `String`, `List`, `Option`
  and `Nat`;
* JavaScript truthiness on optional strings / numbers is made explicit
  (`none` and `some ""` are falsy; a numeric budget field is falsy when it
  is `none` or `some 0`);
* `runSwarmOrchestrator`'s cooperative concurrency is embedded as a
  small-step system.  Per the source, a worker suspends only at the `await`
  of the caller-supplied run-child capability, so a run is a sequence of
  atomic chunks: a worker runs from claiming a plan index (shared cursor)
  through the gate checks up to a run-child invocation, then suspends; a
  schedule (list of indices into the multiset of outstanding calls) chooses
  which outstanding call's result is processed next.  External inputs
  (clock readings, ISO timestamps, generated ids, the abort flag, and the
  run-child results keyed by plan index and attempt number) are oracles in
  the environment, so theorems quantified over environments and schedules
  cover every interleaving and every collaborator behaviour.
* the state carries, next to the fields present in the source
  (`summaries`, `outputs`, the cursor, the token counter), two purely
  observational logs: `updates` records every summary passed to the
  `onChildUpdate` sink, and `calls`/`processed` record run-child
  invocations and processed results.  They receive data the source hands
  to its collaborators and never influence control flow.

A point worth noting for readers diffing against the source: the source
pushes the initial summary object into the `summaries` array and afterwards
only rebinds the local variable `summary` to fresh objects
(`summary = { ...summary, ... }`).  The array element is never mutated, so
the embedded `pushSummary` happens once per plan item and later transitions
go only to the `updates` sink — exactly as in the JavaScript semantics.
-/

set_option maxRecDepth 2048

namespace Swarm

/-- The three canonical swarm roles (`SwarmRole` in `swarm-routing.ts`). -/
inductive SwarmRole where
  | researcher
  | coder
  | reviewer
  deriving DecidableEq, Repr

/-- Serialisation of a role as used in template strings (`${item.role}`). -/
def SwarmRole.toName : SwarmRole → String
  | .researcher => "researcher"
  | .coder => "coder"
  | .reviewer => "reviewer"

/-- A provider snapshot entry (`ConnectedProvider`); only the fields the
orchestration core reads are modelled.  `selectedModelId` is an optional
string, `none`/`some ""` being falsy in the source's truthiness tests. -/
structure ConnectedProvider where
  providerId : String
  connectionStatus : String
  selectedModelId : Option String
  deriving DecidableEq, Repr

/-- A selected route (`SwarmRouteSelection`). -/
structure SwarmRouteSelection where
  providerId : String
  modelId : String
  deriving DecidableEq, Repr

/-- The caller-supplied parent-model fallback (`parentModel` option). -/
structure ParentModelRef where
  providerId : Option String
  modelId : Option String
  deriving DecidableEq, Repr

/-- `ROLE_PROVIDER_PREFERENCES` from `swarm-routing.ts`. -/
def ROLE_PROVIDER_PREFERENCES : SwarmRole → List String
  | .researcher => ["openai", "anthropic", "google", "openrouter", "ollama"]
  | .coder => ["anthropic", "openai", "deepseek", "google", "ollama"]
  | .reviewer => ["openai", "anthropic", "google", "openrouter", "lmstudio"]

/-- JavaScript truthiness of an optional string (`!!s`). -/
def truthyStr : Option String → Bool
  | some s => s ≠ ""
  | none => false

/-- `isProviderReady` from `swarm-routing.ts`: connected and has a selected
model (truthy `selectedModelId`). -/
def isProviderReady (p : ConnectedProvider) : Bool :=
  p.connectionStatus == "connected" && truthyStr p.selectedModelId

/-- The `providersById` map of `selectSwarmRoute`: only ready providers are
inserted, and `Map.set` overwrites, so `get` returns the **last** ready
provider with the given id. -/
def providersByIdGet (provs : List ConnectedProvider) (id : String) :
    Option ConnectedProvider :=
  ((provs.filter isProviderReady).reverse).find? (fun p => p.providerId == id)

/-- The route built from a provider record, guarded by the source's truthy
check on `selectedModelId`. -/
def routeOfProvider (p : ConnectedProvider) : Option SwarmRouteSelection :=
  match p.selectedModelId with
  | some m => if m ≠ "" then some ⟨p.providerId, m⟩ else none
  | none => none

/-- First phase of `selectSwarmRoute`: walk the role's preference list and
return the route of the mapped ready provider, if any. -/
def preferredRoute (role : SwarmRole) (provs : List ConnectedProvider) :
    Option SwarmRouteSelection :=
  (ROLE_PROVIDER_PREFERENCES role).findSome? fun pid =>
    (providersByIdGet provs pid).bind routeOfProvider

/-- Second phase: the caller-supplied fallback, used when both of its fields
are truthy (`fallback?.providerId && fallback.modelId`). -/
def fallbackRoute : Option ParentModelRef → Option SwarmRouteSelection
  | some f =>
    match f.providerId, f.modelId with
    | some pid, some mid =>
      if pid ≠ "" ∧ mid ≠ "" then some ⟨pid, mid⟩ else none
    | _, _ => none
  | none => none

/-- Third phase: the first ready provider in input order
(`readyProviders.find(isProviderReady)` plus the truthy model check). -/
def firstReadyRoute (provs : List ConnectedProvider) :
    Option SwarmRouteSelection :=
  (provs.find? isProviderReady).bind routeOfProvider

/-- `selectSwarmRoute` from `swarm-routing.ts`: preference list, then
fallback, then first ready provider, else `none`. -/
def selectSwarmRoute (role : SwarmRole) (provs : List ConnectedProvider)
    (fb : Option ParentModelRef) : Option SwarmRouteSelection :=
  match preferredRoute role provs with
  | some r => some r
  | none =>
    match fallbackRoute fb with
    | some r => some r
    | none => firstReadyRoute provs

/-- Modelled from the spec's words for the routing claim (C6), to be
compared with the source's `selectSwarmRoute`: "the first ready provider on
the role's fixed preference list" is read as scanning the preference list
and, for each id, taking the ready provider carrying that id (providers are
keyed by id, duplicates are not considered).  The lookup here is first
match in input order, where the source's `Map` keeps the last. -/
def specPreferredRoute (role : SwarmRole) (provs : List ConnectedProvider) :
    Option SwarmRouteSelection :=
  (ROLE_PROVIDER_PREFERENCES role).findSome? fun pid =>
    ((provs.filter isProviderReady).find? (fun p => p.providerId == pid)).bind
      routeOfProvider

/-- Modelled from the spec's words (C6): preference list, else fallback when
both fields are present, else first ready provider in input order, else
`none`. -/
def selectSwarmRouteSpec (role : SwarmRole) (provs : List ConnectedProvider)
    (fb : Option ParentModelRef) : Option SwarmRouteSelection :=
  match specPreferredRoute role provs with
  | some r => some r
  | none =>
    match fallbackRoute fb with
    | some r => some r
    | none => firstReadyRoute provs

/-! ## Transient-error classification (`isTransientError`) -/

/-- JavaScript `\w`: ASCII letters, digits, underscore. -/
def isWordChar (c : Char) : Bool :=
  c.isAlphanum || c == '_'

/-- A `\b` word boundary against an adjacent character (edge of the string
counts as a boundary). -/
def boundaryOk : Option Char → Bool
  | none => true
  | some c => !(isWordChar c)

/-- `wordAt w s`: `w` occurs at the head of `s` and is followed by a word
boundary. -/
def wordAt : List Char → List Char → Bool
  | [], rest => boundaryOk rest.head?
  | _ :: _, [] => false
  | c :: w, d :: rest => c == d && wordAt w rest

/-- `hasWordFrom w prev s`: the word `w` occurs somewhere in `s` delimited
by `\b` word boundaries, `prev` being the character just before `s`. -/
def hasWordFrom (w : List Char) : Option Char → List Char → Bool
  | prev, [] => boundaryOk prev && wordAt w []
  | prev, c :: rest =>
    (boundaryOk prev && wordAt w (c :: rest)) || hasWordFrom w (some c) rest

/-- The fixed transient patterns of `TRANSIENT_ERROR_PATTERNS`, lowered:
each regex is `\b…\b` with the `i` flag, and `\btemporar(y|ily)\b` is the
two words `temporary` and `temporarily`. -/
def TRANSIENT_ERROR_PATTERNS : List String :=
  ["timeout", "etimedout", "econnreset", "econnrefused", "temporary",
   "temporarily", "network", "aborted"]

/-- Lower-casing (`e.toLowerCase()`); character-wise, which agrees with
JavaScript on the ASCII text the patterns can match. -/
def toLowerStr (s : String) : String :=
  ⟨s.data.map Char.toLower⟩

/-- Case-insensitive `\b`-delimited match of one pattern word in `e`. -/
def containsTransientWord (e : String) (w : String) : Bool :=
  hasWordFrom w.data none (toLowerStr e).data

/-- `isTransientError` from `swarm-orchestrator.ts`: falsy error text (absent
or empty) is not transient; otherwise some fixed pattern must match. -/
def isTransientError : Option String → Bool
  | none => false
  | some e =>
    if e = "" then false else TRANSIENT_ERROR_PATTERNS.any (containsTransientWord e)

/-! ## Plan builder and token estimate -/

/-- A plan item (`SwarmChildPlan`). -/
structure SwarmChildPlan where
  role : SwarmRole
  prompt : String
  deriving DecidableEq, Repr

/-- `buildPlan` from `swarm-orchestrator.ts`: the fixed three-role plan with
role-specific prompt templates embedding the parent prompt. -/
def buildPlan (prompt : String) : List SwarmChildPlan :=
  [⟨.researcher,
    "Analyze requirements, constraints, and unknowns for: " ++ prompt ++
    "\nReturn a concise research brief with assumptions and references to inspect."⟩,
   ⟨.coder,
    "Produce the implementation for: " ++ prompt ++
    "\nFocus on concrete code edits and test updates, minimizing regressions."⟩,
   ⟨.reviewer,
    "Review the work for: " ++ prompt ++
    "\nList bugs, risks, missing tests, and rollout checks."⟩]

/-- `estimateTokens`: `Math.max(128, Math.ceil(input.length / 4))`.  String
length counts characters; for the ASCII text involved this coincides with
JavaScript's UTF-16 length. -/
def estimateTokens (input : String) : Nat :=
  max 128 ((input.length + 3) / 4)

/-! ## Orchestrator data model -/

/-- Child summary statuses. -/
inductive ChildStatus where
  | queued
  | running
  | completed
  | failed
  | cancelled
  | timed_out
  deriving DecidableEq, Repr

/-- The four statuses the run-child capability may return. -/
inductive RunChildStatus where
  | completed
  | failed
  | cancelled
  | timed_out
  deriving DecidableEq, Repr

/-- Injection of a capability status into the summary statuses
(`status: result.status`). -/
def RunChildStatus.toChildStatus : RunChildStatus → ChildStatus
  | .completed => .completed
  | .failed => .failed
  | .cancelled => .cancelled
  | .timed_out => .timed_out

/-- `SwarmChildSummary`: the summary record pushed through `onChildUpdate`
and into the `childSummaries` array.  Optional fields that the source leaves
`undefined` are `none`. -/
structure SwarmChildSummary where
  childId : String
  role : SwarmRole
  providerId : String
  modelId : String
  status : ChildStatus
  startedAt : Option String
  completedAt : Option String
  outputPreview : Option String
  error : Option String
  deriving DecidableEq, Repr

/-- `SwarmRunChildResult` as returned by the run-child capability. -/
structure SwarmRunChildResult where
  status : RunChildStatus
  output : Option String
  error : Option String
  transient : Option Bool
  deriving DecidableEq, Repr

/-- The budget configuration; numeric fields are optional, and the gates
treat `some 0` like `none` (JavaScript truthiness). -/
structure SwarmBudget where
  maxEstimatedTokens : Option Nat
  maxWallMs : Option Nat
  deriving DecidableEq, Repr

/-- `SwarmTaskConfig` as read by the orchestrator (`maxAgents`, `budget`;
`enabled` is carried along but not read by `runSwarmOrchestrator`).
`maxAgents` is an integer before clamping. -/
structure SwarmTaskConfig where
  enabled : Bool
  maxAgents : Option Int
  budget : Option SwarmBudget
  deriving DecidableEq, Repr

/-- The returned `SwarmOrchestratorResult`.  The source field `partial` is a
Lean keyword and is called `partialFlag` here. -/
structure SwarmOrchestratorResult where
  combinedOutput : String
  childSummaries : List SwarmChildSummary
  partialFlag : Bool
  deriving DecidableEq, Repr

/-- The run environment: the caller-supplied options plus oracles for the
external collaborators.  `abortedAt`, `nowAt` and `isoAt` are sampled at an
ever-increasing counter (`clock`), `genId` at the id counter, and
`runChild` is keyed by plan index and attempt number — every concrete
collaborator behaviour is one such environment. -/
structure SwarmEnv where
  parentTaskId : String
  prompt : String
  swarm : SwarmTaskConfig
  readyProviders : List ConnectedProvider
  parentModel : Option ParentModelRef
  abortedAt : Nat → Bool
  nowAt : Nat → Nat
  isoAt : Nat → String
  genId : Nat → String
  runChild : Nat → Nat → SwarmRunChildResult

/-- `maxAgents` clamped: `Math.max(1, Math.min(swarm.maxAgents ?? 3, 3))`. -/
def SwarmEnv.maxAgents (env : SwarmEnv) : Nat :=
  (max 1 (min (env.swarm.maxAgents.getD 3) 3)).toNat

/-- The plan: `buildPlan(prompt).slice(0, maxAgents)`. -/
def SwarmEnv.plan (env : SwarmEnv) : List SwarmChildPlan :=
  (buildPlan env.prompt).take env.maxAgents

/-- Worker-pool size: `Math.min(maxAgents, plan.length)`. -/
def SwarmEnv.numWorkers (env : SwarmEnv) : Nat :=
  min env.maxAgents env.plan.length

/-- `wallStart = Date.now()` sampled once at run start (clock index 0). -/
def SwarmEnv.wallStart (env : SwarmEnv) : Nat :=
  env.nowAt 0

/-- The wall budget as seen by the gate: `budget?.maxWallMs` is truthy
exactly when the budget exists, the field exists and is non-zero. -/
def wallBudgetVal (env : SwarmEnv) : Option Nat :=
  match env.swarm.budget with
  | some b =>
    match b.maxWallMs with
    | some w => if w ≠ 0 then some w else none
    | none => none
  | none => none

/-- The token budget as seen by the gate (`budget?.maxEstimatedTokens`,
truthiness as above). -/
def tokenBudgetVal (env : SwarmEnv) : Option Nat :=
  match env.swarm.budget with
  | some b =>
    match b.maxEstimatedTokens with
    | some t => if t ≠ 0 then some t else none
    | none => none
  | none => none

/-- Error message of the pre-start cancellation gate. -/
def cancelMsgStr : String := "Parent task was cancelled"

/-- Error message of the wall-time budget gate. -/
def wallMsgStr : String := "Soft wall-time budget reached before child started"

/-- Error message of the token budget gate. -/
def tokenMsgStr : String := "Soft token budget reached before child started"

/-- Error message of the routing gate. -/
def noRouteMsgStr : String := "No route available from ready providers"

/-- Default error of a terminal result without (truthy) error text:
`'Child task timed out'` for `timed_out`, else `'Child failed'`. -/
def defaultErr : RunChildStatus → String
  | .timed_out => "Child task timed out"
  | _ => "Child failed"

/-- `s.slice(-6)`: last six characters (whole string when shorter). -/
def takeRight6 (s : String) : String :=
  ⟨s.data.drop (s.data.length - 6)⟩

/-- The mutable run state shared by the workers.  `summaries` is the
`childSummaries` array (appended once per plan item), `updates` the stream
of summaries given to `onChildUpdate`, `outputs` the combined-output
buffer; `calls` and `processed` log run-child invocations and processed
results by `(plan index, attempt)` and are purely observational. -/
structure OrchState where
  nextIndex : Nat
  tokensUsed : Nat
  clock : Nat
  idCounter : Nat
  summaries : List SwarmChildSummary
  updates : List SwarmChildSummary
  outputs : List String
  calls : List (Nat × Nat)
  processed : List (Nat × Nat)
  deriving Repr

/-- The initial shared state (clock index 0 was consumed by `wallStart`). -/
def initCore : OrchState :=
  ⟨0, 0, 1, 0, [], [], [], [], []⟩

/-- Append a summary to the `childSummaries` array and emit it on the
update sink (the source's `summaries.push(s); onChildUpdate(s)`). -/
def pushSummary (st : OrchState) (s : SwarmChildSummary) : OrchState :=
  { st with summaries := st.summaries ++ [s], updates := st.updates ++ [s] }

/-- Emit a summary transition on the update sink only. -/
def pushUpdate (st : OrchState) (s : SwarmChildSummary) : OrchState :=
  { st with updates := st.updates ++ [s] }

/-- A worker suspended at a run-child call: the call just issued and the
local `summary` variable at that point. -/
structure PendingCall where
  itemIdx : Nat
  attempt : Nat
  role : SwarmRole
  prompt : String
  route : SwarmRouteSelection
  childId : String
  summary : SwarmChildSummary
  deriving Repr

/-- A gate summary (`nextSummary` with explicit terminal status): fresh id,
parent-model provider/model with the `'openai'`/`'unknown'` defaults, no
timestamps. -/
def gateSummary (env : SwarmEnv) (role : SwarmRole) (status : ChildStatus)
    (id err : String) : SwarmChildSummary :=
  { childId := id
    role := role
    providerId := (env.parentModel.bind ParentModelRef.providerId).getD "openai"
    modelId := (env.parentModel.bind ParentModelRef.modelId).getD "unknown"
    status := status
    startedAt := none
    completedAt := none
    outputPreview := none
    error := some err }

/-- A gate short-circuit: push the gate summary (consuming a generated id)
and finish the item without dispatching. -/
def gateStep (env : SwarmEnv) (st : OrchState) (role : SwarmRole)
    (status : ChildStatus) (err : String) : OrchState × Option PendingCall :=
  (pushSummary { st with idCounter := st.idCounter + 1 }
    (gateSummary env role status (env.genId st.idCounter) err), none)

/-- The dispatch of one plan item on a computed route: allocate the child
id, push the `queued` summary, mark `running` with a fresh ISO timestamp,
issue the attempt-1 run-child call and suspend. -/
def dispatchStep (env : SwarmEnv) (st : OrchState) (item : SwarmChildPlan)
    (i : Nat) (route : SwarmRouteSelection) : OrchState × Option PendingCall :=
  let childId := env.parentTaskId ++ "-child-" ++ item.role.toName ++ "-" ++
    takeRight6 (env.genId st.idCounter)
  let st := { st with idCounter := st.idCounter + 1 }
  let queued : SwarmChildSummary :=
    { childId := childId, role := item.role, providerId := route.providerId
      modelId := route.modelId, status := .queued, startedAt := none
      completedAt := none, outputPreview := none, error := none }
  let st := pushSummary st queued
  let startedAt := env.isoAt st.clock
  let st := { st with clock := st.clock + 1 }
  let running := { queued with status := ChildStatus.running, startedAt := some startedAt }
  let st := pushUpdate st running
  let st := { st with calls := st.calls ++ [(i, 1)] }
  (st, some ⟨i, 1, item.role, item.prompt, route, childId, running⟩)

/-- Routing step of `executePlanItem`: compute the route; on `null` push the
failed gate summary, otherwise dispatch. -/
def processItemRoute (env : SwarmEnv) (st : OrchState) (item : SwarmChildPlan)
    (i : Nat) : OrchState × Option PendingCall :=
  match selectSwarmRoute item.role env.readyProviders env.parentModel with
  | none => gateStep env st item.role .failed noRouteMsgStr
  | some route => dispatchStep env st item i route

/-- Token-budget gate of `executePlanItem`, then the unconditional
`estimatedTokensUsed += tokenEstimate` and the routing step. -/
def processItemTok (env : SwarmEnv) (st : OrchState) (item : SwarmChildPlan)
    (i : Nat) : OrchState × Option PendingCall :=
  let est := estimateTokens item.prompt
  match tokenBudgetVal env with
  | some b =>
    if st.tokensUsed + est > b then
      gateStep env st item.role .cancelled tokenMsgStr
    else
      processItemRoute env { st with tokensUsed := st.tokensUsed + est } item i
  | none =>
    processItemRoute env { st with tokensUsed := st.tokensUsed + est } item i

/-- Wall-budget gate of `executePlanItem`; `Date.now()` is read only when
the wall budget is truthy (short-circuit of `&&`). -/
def processItemWall (env : SwarmEnv) (st : OrchState) (item : SwarmChildPlan)
    (i : Nat) : OrchState × Option PendingCall :=
  match wallBudgetVal env with
  | some w =>
    let tNow := env.nowAt st.clock
    let st := { st with clock := st.clock + 1 }
    if w ≤ tNow - env.wallStart then
      gateStep env st item.role .cancelled wallMsgStr
    else
      processItemTok env st item i
  | none => processItemTok env st item i

/-- One `executePlanItem` entry up to its first suspension: abort gate, wall
gate, token gate, routing, dispatch.  `i` is the claimed plan index. -/
def processItem (env : SwarmEnv) (st : OrchState) (item : SwarmChildPlan)
    (i : Nat) : OrchState × Option PendingCall :=
  let ab := env.abortedAt st.clock
  let st := { st with clock := st.clock + 1 }
  if ab then
    gateStep env st item.role .cancelled cancelMsgStr
  else
    processItemWall env st item i

/-- The worker loop (`while (nextIndex < plan.length)`): claim the cursor,
run `processItem`; keep claiming while items finish without suspending
(gate and no-route items), suspend at the first run-child call, stop when
the cursor is exhausted.  `fuel` dominates the number of remaining items;
`runSwarm` always supplies enough. -/
def claimLoop (env : SwarmEnv) : Nat → OrchState → OrchState × Option PendingCall
  | 0, st => (st, none)
  | fuel + 1, st =>
    if h : st.nextIndex < env.plan.length then
      let item := env.plan.get ⟨st.nextIndex, h⟩
      let i := st.nextIndex
      match processItem env { st with nextIndex := i + 1 } item i with
      | (st', some p) => (st', some p)
      | (st', none) => claimLoop env fuel st'
    else (st, none)

/-- Completion branch of the attempt loop: mark `completed` with the end
timestamp and the 600-character preview, and append the full output with
its role heading when the output is truthy. -/
def completeStep (env : SwarmEnv) (st : OrchState) (p : PendingCall)
    (completedAt : String) : OrchState × Option PendingCall :=
  let r := env.runChild p.itemIdx p.attempt
  let preview : Option String :=
    match r.output with
    | some o => if o ≠ "" then some (o.take 600) else none
    | none => none
  let s := { p.summary with status := ChildStatus.completed
                            completedAt := some completedAt
                            outputPreview := preview }
  let st := pushUpdate st s
  let st := { st with processed := st.processed ++ [(p.itemIdx, p.attempt)] }
  let st :=
    match r.output with
    | some o =>
      if o ≠ "" then
        { st with outputs := st.outputs ++ ["## " ++ p.role.toName ++ "\n" ++ o] }
      else st
    | none => st
  (st, none)

/-- Retry branch: mark `running` again with the retry note, then start
attempt 2 (fresh ISO timestamp, new run-child call, suspend again). -/
def retryStep (env : SwarmEnv) (st : OrchState) (p : PendingCall) :
    OrchState × Option PendingCall :=
  let s := { p.summary with status := ChildStatus.running
                            error := some "Transient error detected; retrying once" }
  let st := pushUpdate st s
  let st := { st with processed := st.processed ++ [(p.itemIdx, 1)] }
  let startedAt := env.isoAt st.clock
  let st := { st with clock := st.clock + 1 }
  let s2 := { s with status := ChildStatus.running, startedAt := some startedAt }
  let st := pushUpdate st s2
  let st := { st with calls := st.calls ++ [(p.itemIdx, 2)] }
  (st, some { p with attempt := 2, summary := s2 })

/-- Terminal branch: mark the result's status with the end timestamp and
the provided or default error message. -/
def terminalStep (env : SwarmEnv) (st : OrchState) (p : PendingCall)
    (completedAt : String) : OrchState × Option PendingCall :=
  let r := env.runChild p.itemIdx p.attempt
  let err : String :=
    match r.error with
    | some e => if e ≠ "" then e else defaultErr r.status
    | none => defaultErr r.status
  let s := { p.summary with status := r.status.toChildStatus
                            completedAt := some completedAt
                            error := some err }
  (pushUpdate { st with processed := st.processed ++ [(p.itemIdx, p.attempt)] } s, none)

/-- Processing of one run-child result (the tail of the attempt loop):
completion, retry of a transient first-attempt failure, or a terminal
summary.  Returns the next suspension of this worker, if any. -/
def deliver (env : SwarmEnv) (st : OrchState) (p : PendingCall) :
    OrchState × Option PendingCall :=
  let r := env.runChild p.itemIdx p.attempt
  let completedAt := env.isoAt st.clock
  let st := { st with clock := st.clock + 1 }
  let transientFlag := r.transient.getD (isTransientError r.error)
  if r.status = .completed then
    completeStep env st p completedAt
  else if p.attempt = 1 ∧ r.status = .failed ∧ transientFlag then
    retryStep env st p
  else
    terminalStep env st p completedAt

/-- Resume a suspended worker: process the outstanding result; unless it
suspends again on the retry attempt, fall back into the claim loop. -/
def workerResume (env : SwarmEnv) (fuel : Nat) (st : OrchState)
    (p : PendingCall) : OrchState × Option PendingCall :=
  match deliver env st p with
  | (st', some p2) => (st', some p2)
  | (st', none) => claimLoop env fuel st'

/-- A run state: the shared state plus the multiset of outstanding
run-child calls (each belonging to one suspended worker). -/
structure RunState where
  core : OrchState
  pends : List PendingCall
  deriving Repr

/-- Start of the run: `Array.from({length: numWorkers}, () => worker())`
runs each worker in creation order up to its first suspension. -/
def initWorkers (env : SwarmEnv) : Nat → OrchState → OrchState × List PendingCall
  | 0, st => (st, [])
  | n + 1, st =>
    let r := claimLoop env (env.plan.length + 1) st
    let rest := initWorkers env n r.1
    (rest.1, r.2.toList ++ rest.2)

/-- The run state after all workers have started. -/
def initRun (env : SwarmEnv) : RunState :=
  let r := initWorkers env env.numWorkers initCore
  ⟨r.1, r.2⟩

/-- One scheduling step: pick the `k`-th outstanding call, deliver its
result, resume that worker.  An out-of-range pick is an invalid schedule. -/
def stepRun (env : SwarmEnv) (s : RunState) (k : Nat) : Option RunState :=
  match s.pends.drop k with
  | [] => none
  | p :: rest =>
    let r := workerResume env (env.plan.length + 1) s.core p
    some ⟨r.1, s.pends.take k ++ rest ++ r.2.toList⟩

/-- Run a schedule to the end; the run is complete when no call is
outstanding (all workers exited their loops). -/
def runAux (env : SwarmEnv) : List Nat → RunState → Option RunState
  | [], s => if s.pends.isEmpty then some s else none
  | k :: sched, s =>
    match stepRun env s k with
    | some s' => runAux env sched s'
    | none => none

/-- A complete run of the orchestrator under a given schedule. -/
def runSwarm (env : SwarmEnv) (sched : List Nat) : Option RunState :=
  runAux env sched (initRun env)

/-- `.trim()`: strip whitespace from both ends (character-wise, matching
JavaScript on the ASCII whitespace involved). -/
def trimStr (s : String) : String :=
  ⟨((s.data.dropWhile Char.isWhitespace).reverse.dropWhile Char.isWhitespace).reverse⟩

/-- The aggregation at the end of `runSwarmOrchestrator`: joined trimmed
output, the `childSummaries` array as it stands, and
`summaries.some(child => child.status !== 'completed')`. -/
def mkResult (st : OrchState) : SwarmOrchestratorResult :=
  ⟨trimStr (String.intercalate "\n\n" st.outputs),
   st.summaries,
   st.summaries.any (fun c => c.status != ChildStatus.completed)⟩

/-- `runSwarmOrchestrator`: the observable result of a complete run. -/
def runSwarmOrchestrator (env : SwarmEnv) (sched : List Nat) :
    Option SwarmOrchestratorResult :=
  (runSwarm env sched).map (fun s => mkResult s.core)

/-! ## Observation predicates and run invariants -/

/-- The attempts logged for plan item `i`, in order. -/
def attemptsOf (l : List (Nat × Nat)) (i : Nat) : List Nat :=
  (l.filter (fun c => c.1 == i)).map Prod.snd

/-- The outstanding calls belonging to plan item `i`. -/
def pfilter (pends : List PendingCall) (i : Nat) : List PendingCall :=
  pends.filter (fun p => p.itemIdx == i)

/-- The transience judgement applied to a capability result: the explicit
flag when present, else the pattern classification of the error text
(`result.transient ?? isTransientError(result.error)`). -/
def transientOf (r : SwarmRunChildResult) : Bool :=
  r.transient.getD (isTransientError r.error)

/-- Plan item `i` triggers the retry: the first attempt's result is
`failed` and judged transient. -/
def retryCond (env : SwarmEnv) (i : Nat) : Prop :=
  (env.runChild i 1).status = .failed ∧ transientOf (env.runChild i 1) = true

/-- The combined-output block contributed by processing the result of
attempt `a` of plan item `i`: the role heading plus the full output, and
only for a `completed` result with truthy output. -/
def blockOf (env : SwarmEnv) (i a : Nat) : Option String :=
  match env.plan.get? i with
  | some item =>
    let r := env.runChild i a
    if r.status = .completed then
      match r.output with
      | some o => if o ≠ "" then some ("## " ++ item.role.toName ++ "\n" ++ o) else none
      | none => none
    else none
  | none => none

/-- Terminal statuses: everything except `queued` and `running`. -/
def isTerminalB (s : ChildStatus) : Bool :=
  s == ChildStatus.completed || s == ChildStatus.failed ||
  s == ChildStatus.cancelled || s == ChildStatus.timed_out

/-- The per-element invariant of the update stream: a terminal summary
either carries both timestamps, or carries neither and is a gate summary
(`cancelled` or `failed`); and a pre-start summary carries a budget-gate
message only when the corresponding budget is truthy. -/
def GoodUpd (env : SwarmEnv) (u : SwarmChildSummary) : Prop :=
  (isTerminalB u.status = true →
    (u.startedAt.isSome = true ∧ u.completedAt.isSome = true) ∨
    (u.startedAt = none ∧ u.completedAt = none ∧
      (u.status = ChildStatus.cancelled ∨ u.status = ChildStatus.failed))) ∧
  (u.startedAt = none → u.error = some wallMsgStr → (wallBudgetVal env).isSome = true) ∧
  (u.startedAt = none → u.error = some tokenMsgStr → (tokenBudgetVal env).isSome = true)

/-- Well-formedness of an outstanding call for item `i`, attempt `a`. -/
def POk (env : SwarmEnv) (i a : Nat) (p : PendingCall) : Prop :=
  p.itemIdx = i ∧ p.attempt = a ∧ p.summary.startedAt.isSome = true ∧
  env.plan.get? i = some ⟨p.role, p.prompt⟩

/-- The attempt state machine of one plan item, as visible in the logs:
not dispatched (gated, not yet claimed, or routing failed); attempt 1
outstanding; done after one attempt (no retry triggered); retry
outstanding; done after the retry. -/
def ItemPhase (env : SwarmEnv) (core : OrchState) (pends : List PendingCall)
    (i : Nat) : Prop :=
  (attemptsOf core.calls i = [] ∧ attemptsOf core.processed i = [] ∧
    pfilter pends i = []) ∨
  (∃ p, attemptsOf core.calls i = [1] ∧ attemptsOf core.processed i = [] ∧
    pfilter pends i = [p] ∧ POk env i 1 p) ∨
  (attemptsOf core.calls i = [1] ∧ attemptsOf core.processed i = [1] ∧
    pfilter pends i = [] ∧ ¬ retryCond env i) ∨
  (∃ p, attemptsOf core.calls i = [1, 2] ∧ attemptsOf core.processed i = [1] ∧
    pfilter pends i = [p] ∧ POk env i 2 p ∧ retryCond env i) ∨
  (attemptsOf core.calls i = [1, 2] ∧ attemptsOf core.processed i = [1, 2] ∧
    pfilter pends i = [] ∧ retryCond env i)

/-- The run invariant: bookkeeping tying the shared state and the
outstanding calls to the plan. -/
structure InvCore (env : SwarmEnv) (core : OrchState)
    (pends : List PendingCall) : Prop where
  sumLen : core.summaries.length = core.nextIndex
  nextLe : core.nextIndex ≤ env.plan.length
  roles : core.summaries.map (fun sm => sm.role) =
    (env.plan.take core.nextIndex).map (fun it => it.role)
  subset : ∀ sm ∈ core.summaries, sm ∈ core.updates
  updOk : ∀ u ∈ core.updates, GoodUpd env u
  outsEq : core.outputs = core.processed.filterMap (fun c => blockOf env c.1 c.2)
  callsLt : ∀ c ∈ core.calls, c.1 < core.nextIndex
  pendsLt : ∀ p ∈ pends, p.itemIdx < core.nextIndex
  procLt : ∀ c ∈ core.processed, c.1 < core.nextIndex
  phases : ∀ i, ItemPhase env core pends i

/-- The invariant of a whole run state, plus the exit condition: when no
call is outstanding every worker has exited, so the cursor has consumed
the whole plan. -/
def RunInv (env : SwarmEnv) (s : RunState) : Prop :=
  InvCore env s.core s.pends ∧
  (s.pends = [] → s.core.nextIndex = env.plan.length)

/-! ## Concrete environments used by witnesses and counterexamples -/

/-- A connected `openai` provider with a selected model. -/
def provOpenAI : ConnectedProvider :=
  ⟨"openai", "connected", some "openai/gpt-5"⟩

/-- Base concrete environment: one plan item (`maxAgents = 1`), no budget,
never aborted, run-child always completes with output `"ok"`. -/
def envAllOk : SwarmEnv :=
  { parentTaskId := "parent-1"
    prompt := "p"
    swarm := ⟨true, some 1, none⟩
    readyProviders := [provOpenAI]
    parentModel := some ⟨some "openai", some "openai/gpt-5"⟩
    abortedAt := fun _ => false
    nowAt := fun _ => 0
    isoAt := fun _ => "t"
    genId := fun _ => "abcdef123456"
    runChild := fun _ _ => ⟨.completed, some "ok", none, none⟩ }

/-- The base environment with the cancellation signal aborted throughout. -/
def envPreAbort : SwarmEnv :=
  { envAllOk with abortedAt := fun _ => true }

/-- Three plan items under a 100-token budget; every estimate is at least
128, so the token gate rejects every item. -/
def envTokenBudget : SwarmEnv :=
  { envAllOk with swarm := ⟨true, some 3, some ⟨some 100, none⟩⟩ }

/-- One plan item whose first attempt fails transiently (explicit flag) and
whose retry completes. -/
def envRetry : SwarmEnv :=
  { envAllOk with
    runChild := fun _ a =>
      if a = 1 then ⟨.failed, none, some "socket timeout", none⟩
      else ⟨.completed, some "ok", none, none⟩ }

/-- A 5 ms wall budget with a clock that has advanced 100 ms past the run
start by the time the first gate check reads it. -/
def envWallBudget : SwarmEnv :=
  { envAllOk with
    swarm := ⟨true, some 1, some ⟨none, some 5⟩⟩
    nowAt := fun n => if n = 0 then 0 else 100 }

/-- Both budget fields present but zero; JavaScript truthiness disables
both gates. -/
def envZeroBudget : SwarmEnv :=
  { envAllOk with swarm := ⟨true, some 1, some ⟨some 0, some 0⟩⟩ }

/-- A throwaway summary used as the default of list lookups in witness
statements. -/
def dummySummary : SwarmChildSummary :=
  ⟨"", .researcher, "", "", .queued, none, none, none, none⟩

/-- A concrete plan item used by gate witnesses. -/
def planItemW : SwarmChildPlan := ⟨.researcher, "p"⟩

/-- The final state of the base environment's run under schedule `[0]`. -/
def sAllOk : RunState := (runSwarm envAllOk [0]).getD ⟨initCore, []⟩

/-- The final state of the pre-aborted run (empty schedule). -/
def sPreAbort : RunState := (runSwarm envPreAbort []).getD ⟨initCore, []⟩

/-- The final state of the 100-token-budget run (empty schedule). -/
def sTokenBudget : RunState := (runSwarm envTokenBudget []).getD ⟨initCore, []⟩

/-- The final state of the transient-retry run under schedule `[0, 0]`. -/
def sRetry : RunState := (runSwarm envRetry [0, 0]).getD ⟨initCore, []⟩

/-- The final state of the zero-budget run under schedule `[0]`. -/
def sZeroBudget : RunState := (runSwarm envZeroBudget [0]).getD ⟨initCore, []⟩

/-- Outcome of a gate (abort, wall, token, routing) on one plan item: one
terminal summary is pushed, no run-child call is issued, nothing else
changes (tokens may have been charged). -/
def GateOut (env : SwarmEnv) (st st1 : OrchState) (item : SwarmChildPlan) : Prop :=
  ∃ sm, st1.summaries = st.summaries ++ [sm] ∧
    st1.updates = st.updates ++ [sm] ∧
    st1.calls = st.calls ∧ st1.processed = st.processed ∧
    st1.outputs = st.outputs ∧ st1.nextIndex = st.nextIndex ∧
    st.tokensUsed ≤ st1.tokensUsed ∧
    sm.role = item.role ∧ GoodUpd env sm

/-- Outcome of a successful dispatch of one plan item: the `queued` summary
is pushed, the `running` transition emitted, the attempt-1 call issued and
outstanding. -/
def DispatchOut (env : SwarmEnv) (st st1 : OrchState) (item : SwarmChildPlan)
    (i : Nat) (p : PendingCall) : Prop :=
  ∃ sm sm2, st1.summaries = st.summaries ++ [sm] ∧
    st1.updates = st.updates ++ [sm] ++ [sm2] ∧
    st1.calls = st.calls ++ [(i, 1)] ∧ st1.processed = st.processed ∧
    st1.outputs = st.outputs ∧ st1.nextIndex = st.nextIndex ∧
    st.tokensUsed ≤ st1.tokensUsed ∧
    sm.role = item.role ∧ GoodUpd env sm ∧ GoodUpd env sm2 ∧
    p.itemIdx = i ∧ p.attempt = 1 ∧ p.summary.startedAt.isSome = true ∧
    p.role = item.role ∧ p.prompt = item.prompt

end Swarm

namespace Swarm

/-! ## Basic facts about the plan and the clamp -/

theorem buildPlan_length (prompt : String) : (buildPlan prompt).length = 3 := rfl

theorem maxAgents_pos (env : SwarmEnv) : 1 ≤ env.maxAgents := by
  unfold SwarmEnv.maxAgents
  have h : (1 : Int) ≤ max 1 (min (env.swarm.maxAgents.getD 3) 3) := le_max_left _ _
  omega

theorem maxAgents_le_three (env : SwarmEnv) : env.maxAgents ≤ 3 := by
  unfold SwarmEnv.maxAgents
  have h1 : min (env.swarm.maxAgents.getD 3) 3 ≤ 3 := min_le_right _ _
  have h : max 1 (min (env.swarm.maxAgents.getD 3) 3) ≤ 3 := by omega
  omega

theorem plan_length (env : SwarmEnv) : env.plan.length = env.maxAgents := by
  have h3 : (buildPlan env.prompt).length = 3 := rfl
  have hle := maxAgents_le_three env
  unfold SwarmEnv.plan
  rw [List.length_take, h3]
  omega

theorem plan_pos (env : SwarmEnv) : 1 ≤ env.plan.length := by
  rw [plan_length]; exact maxAgents_pos env

theorem numWorkers_eq (env : SwarmEnv) : env.numWorkers = env.maxAgents := by
  unfold SwarmEnv.numWorkers
  rw [plan_length]
  omega

theorem numWorkers_pos (env : SwarmEnv) : 1 ≤ env.numWorkers := by
  rw [numWorkers_eq]; exact maxAgents_pos env

/-! ## Log bookkeeping lemmas -/

theorem attemptsOf_append (l : List (Nat × Nat)) (j a i : Nat) :
    attemptsOf (l ++ [(j, a)]) i =
      attemptsOf l i ++ (if j = i then [a] else []) := by
  by_cases h : j = i <;> simp [attemptsOf, h]

theorem pfilter_append (l1 l2 : List PendingCall) (i : Nat) :
    pfilter (l1 ++ l2) i = pfilter l1 i ++ pfilter l2 i := by
  simp [pfilter]

theorem pfilter_cons (p : PendingCall) (l : List PendingCall) (i : Nat) :
    pfilter (p :: l) i =
      (if p.itemIdx = i then [p] else []) ++ pfilter l i := by
  by_cases h : p.itemIdx = i <;> simp [pfilter, h]

theorem attemptsOf_eq_nil (l : List (Nat × Nat)) (n i : Nat)
    (hlt : ∀ c ∈ l, c.1 < n) (h : n ≤ i) : attemptsOf l i = [] := by
  have : l.filter (fun c => c.1 == i) = [] := by
    rw [List.filter_eq_nil_iff]
    intro c hc
    have := hlt c hc
    simp only [beq_iff_eq]
    omega
  simp [attemptsOf, this]

theorem pfilter_eq_nil (pends : List PendingCall) (n i : Nat)
    (hlt : ∀ p ∈ pends, p.itemIdx < n) (h : n ≤ i) : pfilter pends i = [] := by
  rw [pfilter, List.filter_eq_nil_iff]
  intro p hp
  have := hlt p hp
  simp only [beq_iff_eq]
  omega

theorem mem_attemptsOf (l : List (Nat × Nat)) (i a : Nat) :
    a ∈ attemptsOf l i ↔ (i, a) ∈ l := by
  constructor
  · intro h
    rcases List.mem_map.mp h with ⟨c, hc, hc2⟩
    rcases List.mem_filter.mp hc with ⟨hcl, hci⟩
    have h1 : c.1 = i := by simpa using hci
    have : c = (i, a) := by
      cases c
      simp_all
    exact this ▸ hcl
  · intro h
    refine List.mem_map.mpr ⟨(i, a), List.mem_filter.mpr ⟨h, by simp⟩, rfl⟩

end Swarm

namespace Swarm

/-! ## Outcome lemmas for the gate and dispatch steps -/

theorem goodUpd_gateSummary (env : SwarmEnv) (role : SwarmRole)
    (status : ChildStatus) (id err : String)
    (hst : status = ChildStatus.cancelled ∨ status = ChildStatus.failed)
    (hw : err = wallMsgStr → (wallBudgetVal env).isSome = true)
    (ht : err = tokenMsgStr → (tokenBudgetVal env).isSome = true) :
    GoodUpd env (gateSummary env role status id err) := by
  refine ⟨fun _ => Or.inr ⟨rfl, rfl, hst⟩, ?_, ?_⟩
  · intro _ h
    exact hw (Option.some.inj h)
  · intro _ h
    exact ht (Option.some.inj h)

theorem goodUpd_nonterminal (env : SwarmEnv) (u : SwarmChildSummary)
    (h : isTerminalB u.status = false) (he : u.error = none) : GoodUpd env u := by
  refine ⟨fun hterm => absurd hterm (by simp [h]), ?_, ?_⟩ <;>
    · intro _ he2
      rw [he] at he2
      exact absurd he2 (by simp)

theorem gateStep_out (env : SwarmEnv) (st : OrchState) (item : SwarmChildPlan)
    (status : ChildStatus) (err : String)
    (hst : status = ChildStatus.cancelled ∨ status = ChildStatus.failed)
    (hw : err = wallMsgStr → (wallBudgetVal env).isSome = true)
    (ht : err = tokenMsgStr → (tokenBudgetVal env).isSome = true) :
    (gateStep env st item.role status err).2 = none ∧
    GateOut env st (gateStep env st item.role status err).1 item := by
  refine ⟨rfl, gateSummary env item.role status (env.genId st.idCounter) err,
    rfl, rfl, rfl, rfl, rfl, rfl, le_refl _, rfl, ?_⟩
  exact goodUpd_gateSummary env item.role status _ err hst hw ht

theorem dispatchStep_out (env : SwarmEnv) (st : OrchState)
    (item : SwarmChildPlan) (i : Nat) (route : SwarmRouteSelection) :
    ∃ p, (dispatchStep env st item i route).2 = some p ∧
      DispatchOut env st (dispatchStep env st item i route).1 item i p := by
  refine ⟨_, rfl, _, _, rfl, rfl, rfl, rfl, rfl, rfl, le_refl _, rfl, ?_, ?_,
    rfl, rfl, rfl, rfl, rfl⟩
  · exact goodUpd_nonterminal env _ rfl rfl
  · exact goodUpd_nonterminal env _ rfl rfl

end Swarm

namespace Swarm

theorem gateOut_token_lift (env : SwarmEnv) (st st1 : OrchState)
    (item : SwarmChildPlan) (est : Nat)
    (h : GateOut env { st with tokensUsed := st.tokensUsed + est } st1 item) :
    GateOut env st st1 item := by
  obtain ⟨sm, h1, h2, h3, h4, h5, h6, h7, h8, h9⟩ := h
  exact ⟨sm, h1, h2, h3, h4, h5, h6,
    Nat.le_trans (Nat.le_add_right _ _) h7, h8, h9⟩

theorem dispatchOut_token_lift (env : SwarmEnv) (st st1 : OrchState)
    (item : SwarmChildPlan) (i : Nat) (p : PendingCall) (est : Nat)
    (h : DispatchOut env { st with tokensUsed := st.tokensUsed + est } st1 item i p) :
    DispatchOut env st st1 item i p := by
  obtain ⟨sm, sm2, h1, h2, h3, h4, h5, h6, h7, h8⟩ := h
  exact ⟨sm, sm2, h1, h2, h3, h4, h5, h6,
    Nat.le_trans (Nat.le_add_right _ _) h7, h8⟩

theorem processItemRoute_cases (env : SwarmEnv) (st : OrchState)
    (item : SwarmChildPlan) (i : Nat) :
    ((processItemRoute env st item i).2 = none ∧
      GateOut env st (processItemRoute env st item i).1 item) ∨
    (∃ p, (processItemRoute env st item i).2 = some p ∧
      DispatchOut env st (processItemRoute env st item i).1 item i p) := by
  unfold processItemRoute
  cases hr : selectSwarmRoute item.role env.readyProviders env.parentModel with
  | none =>
    left
    exact gateStep_out env st item .failed noRouteMsgStr (Or.inr rfl)
      (fun he => absurd he (by decide)) (fun he => absurd he (by decide))
  | some route =>
    right
    exact dispatchStep_out env st item i route

theorem processItemTok_cases (env : SwarmEnv) (st : OrchState)
    (item : SwarmChildPlan) (i : Nat) :
    ((processItemTok env st item i).2 = none ∧
      GateOut env st (processItemTok env st item i).1 item) ∨
    (∃ p, (processItemTok env st item i).2 = some p ∧
      DispatchOut env st (processItemTok env st item i).1 item i p) := by
  unfold processItemTok
  cases ht : tokenBudgetVal env with
  | some b =>
    dsimp only
    by_cases hgt : st.tokensUsed + estimateTokens item.prompt > b
    · rw [if_pos hgt]
      left
      exact gateStep_out env st item .cancelled tokenMsgStr (Or.inl rfl)
        (fun he => absurd he (by decide)) (fun _ => by rw [ht]; rfl)
    · rw [if_neg hgt]
      rcases processItemRoute_cases env
          { st with tokensUsed := st.tokensUsed + estimateTokens item.prompt } item i with
        ⟨hn, hg⟩ | ⟨p, hs, hd⟩
      · exact Or.inl ⟨hn, gateOut_token_lift env st _ item _ hg⟩
      · exact Or.inr ⟨p, hs, dispatchOut_token_lift env st _ item i p _ hd⟩
  | none =>
    dsimp only
    rcases processItemRoute_cases env
        { st with tokensUsed := st.tokensUsed + estimateTokens item.prompt } item i with
      ⟨hn, hg⟩ | ⟨p, hs, hd⟩
    · exact Or.inl ⟨hn, gateOut_token_lift env st _ item _ hg⟩
    · exact Or.inr ⟨p, hs, dispatchOut_token_lift env st _ item i p _ hd⟩

theorem processItemWall_cases (env : SwarmEnv) (st : OrchState)
    (item : SwarmChildPlan) (i : Nat) :
    ((processItemWall env st item i).2 = none ∧
      GateOut env st (processItemWall env st item i).1 item) ∨
    (∃ p, (processItemWall env st item i).2 = some p ∧
      DispatchOut env st (processItemWall env st item i).1 item i p) := by
  unfold processItemWall
  cases hw : wallBudgetVal env with
  | some w =>
    dsimp only
    by_cases hge : w ≤ env.nowAt st.clock - env.wallStart
    · rw [if_pos hge]
      left
      exact gateStep_out env { st with clock := st.clock + 1 } item .cancelled
        wallMsgStr (Or.inl rfl) (fun _ => by rw [hw]; rfl)
        (fun he => absurd he (by decide))
    · rw [if_neg hge]
      exact processItemTok_cases env { st with clock := st.clock + 1 } item i
  | none =>
    dsimp only
    exact processItemTok_cases env st item i

theorem processItem_cases (env : SwarmEnv) (st : OrchState)
    (item : SwarmChildPlan) (i : Nat) :
    ((processItem env st item i).2 = none ∧
      GateOut env st (processItem env st item i).1 item) ∨
    (∃ p, (processItem env st item i).2 = some p ∧
      DispatchOut env st (processItem env st item i).1 item i p) := by
  unfold processItem
  cases hab : env.abortedAt st.clock
  · simp only [Bool.false_eq_true, if_false]
    exact processItemWall_cases env { st with clock := st.clock + 1 } item i
  · simp only [if_true]
    left
    exact gateStep_out env { st with clock := st.clock + 1 } item .cancelled
      cancelMsgStr (Or.inl rfl) (fun he => absurd he (by decide))
      (fun he => absurd he (by decide))

end Swarm

namespace Swarm

/-! ## Invariant transfer across one claimed plan item -/

theorem take_succ_map_role (plan : List SwarmChildPlan) (n : Nat)
    (h : n < plan.length) :
    (plan.take (n + 1)).map (fun it => it.role) =
      (plan.take n).map (fun it => it.role) ++ [(plan.get ⟨n, h⟩).role] := by
  rw [List.take_succ, List.map_append, List.getElem?_eq_getElem h]
  simp

theorem itemPhase_congr (env : SwarmEnv) (c1 c2 : OrchState)
    (pe1 pe2 : List PendingCall) (i : Nat)
    (hc : c2.calls = c1.calls) (hp : c2.processed = c1.processed)
    (hpe : pfilter pe2 i = pfilter pe1 i)
    (h : ItemPhase env c1 pe1 i) : ItemPhase env c2 pe2 i := by
  unfold ItemPhase at h ⊢
  rw [hc, hp, hpe]
  exact h

theorem invCore_gate (env : SwarmEnv) (st st2 : OrchState)
    (pends : List PendingCall)
    (h : st.nextIndex < env.plan.length)
    (inv : InvCore env st pends)
    (hg : GateOut env { st with nextIndex := st.nextIndex + 1 } st2
      (env.plan.get ⟨st.nextIndex, h⟩)) :
    InvCore env st2 pends ∧ st2.nextIndex = st.nextIndex + 1 ∧
      st.tokensUsed ≤ st2.tokensUsed := by
  obtain ⟨sm, h1, h2, h3, h4, h5, h6, h7, h8, h9⟩ := hg
  dsimp only at h1 h2 h3 h4 h5 h6 h7
  have hnl : st2.nextIndex = st.nextIndex + 1 := h6
  refine ⟨⟨?_, ?_, ?_, ?_, ?_, ?_, ?_, ?_, ?_, ?_⟩, hnl, h7⟩
  · rw [h1, List.length_append, inv.sumLen, hnl]
    rfl
  · omega
  · rw [h1, List.map_append, inv.roles, hnl, take_succ_map_role env.plan st.nextIndex h]
    simp [h8]
  · intro x hx
    rw [h1] at hx
    rw [h2]
    rcases List.mem_append.mp hx with hx | hx
    · exact List.mem_append_left _ (inv.subset x hx)
    · exact List.mem_append_right _ hx
  · intro u hu
    rw [h2] at hu
    rcases List.mem_append.mp hu with hu | hu
    · exact inv.updOk u hu
    · rcases List.mem_singleton.mp hu with rfl
      exact h9
  · rw [h5, h4, inv.outsEq]
  · intro c hc
    rw [h3] at hc
    have := inv.callsLt c hc
    omega
  · intro p hp
    have := inv.pendsLt p hp
    omega
  · intro c hc
    rw [h4] at hc
    have := inv.procLt c hc
    omega
  · intro j
    exact itemPhase_congr env st st2 pends pends j h3 h4 rfl (inv.phases j)

end Swarm

namespace Swarm

theorem itemPhase_congr2 (env : SwarmEnv) (c1 c2 : OrchState)
    (pe1 pe2 : List PendingCall) (i : Nat)
    (hc : attemptsOf c2.calls i = attemptsOf c1.calls i)
    (hp : attemptsOf c2.processed i = attemptsOf c1.processed i)
    (hpe : pfilter pe2 i = pfilter pe1 i)
    (h : ItemPhase env c1 pe1 i) : ItemPhase env c2 pe2 i := by
  unfold ItemPhase at h ⊢
  rw [hc, hp, hpe]
  exact h

theorem invCore_dispatch (env : SwarmEnv) (st st2 : OrchState)
    (pends : List PendingCall) (p : PendingCall)
    (h : st.nextIndex < env.plan.length)
    (inv : InvCore env st pends)
    (hd : DispatchOut env { st with nextIndex := st.nextIndex + 1 } st2
      (env.plan.get ⟨st.nextIndex, h⟩) st.nextIndex p) :
    InvCore env st2 (pends ++ [p]) ∧ st2.nextIndex = st.nextIndex + 1 ∧
      st.tokensUsed ≤ st2.tokensUsed ∧ p.itemIdx = st.nextIndex := by
  obtain ⟨sm, sm2, h1, h2, h3, h4, h5, h6, h7, h8, h9, h10, h11, h12, h13, h14, h15⟩ := hd
  dsimp only at h1 h2 h3 h4 h5 h6 h7
  have hnl : st2.nextIndex = st.nextIndex + 1 := h6
  refine ⟨⟨?_, ?_, ?_, ?_, ?_, ?_, ?_, ?_, ?_, ?_⟩, hnl, h7, h11⟩
  · rw [h1, List.length_append, inv.sumLen, hnl]
    rfl
  · omega
  · rw [h1, List.map_append, inv.roles, hnl, take_succ_map_role env.plan st.nextIndex h]
    simp [h8]
  · intro x hx
    rw [h1] at hx
    rw [h2]
    rcases List.mem_append.mp hx with hx | hx
    · exact List.mem_append_left _ (List.mem_append_left _ (inv.subset x hx))
    · exact List.mem_append_left _ (List.mem_append_right _ hx)
  · intro u hu
    rw [h2] at hu
    rcases List.mem_append.mp hu with hu | hu
    · rcases List.mem_append.mp hu with hu | hu
      · exact inv.updOk u hu
      · rcases List.mem_singleton.mp hu with rfl
        exact h9
    · rcases List.mem_singleton.mp hu with rfl
      exact h10
  · rw [h5, h4, inv.outsEq]
  · intro c hc
    rw [h3] at hc
    rcases List.mem_append.mp hc with hc | hc
    · have := inv.callsLt c hc
      omega
    · rcases List.mem_singleton.mp hc with rfl
      omega
  · intro q hq
    rcases List.mem_append.mp hq with hq | hq
    · have := inv.pendsLt q hq
      omega
    · rcases List.mem_singleton.mp hq with rfl
      omega
  · intro c hc
    rw [h4] at hc
    have := inv.procLt c hc
    omega
  · intro j
    by_cases hj : j = st.nextIndex
    · refine Or.inr (Or.inl ⟨p, ?_, ?_, ?_, by omega, h12, h13, ?_⟩)
      · rw [h3, attemptsOf_append,
          attemptsOf_eq_nil st.calls st.nextIndex j inv.callsLt (by omega),
          if_pos hj.symm]
        rfl
      · rw [h4]
        exact attemptsOf_eq_nil st.processed st.nextIndex j inv.procLt (by omega)
      · rw [pfilter_append,
          pfilter_eq_nil pends st.nextIndex j inv.pendsLt (by omega)]
        simp [pfilter, h11, hj]
      · rw [hj, h14, h15]
        exact List.get?_eq_get h
    · refine itemPhase_congr2 env st st2 pends (pends ++ [p]) j ?_ ?_ ?_ (inv.phases j)
      · rw [h3, attemptsOf_append, if_neg (by omega : ¬ st.nextIndex = j), List.append_nil]
      · rw [h4]
      · rw [pfilter_append]
        have hnp : pfilter [p] j = [] := by
          have hbf : (p.itemIdx == j) = false := by
            rw [h11]
            simp only [beq_eq_false_iff_ne, ne_eq]
            omega
          simp [pfilter, List.filter, hbf]
        rw [hnp, List.append_nil]

end Swarm

namespace Swarm

theorem claimLoop_zero (env : SwarmEnv) (st : OrchState) :
    claimLoop env 0 st = (st, none) := rfl

theorem claimLoop_stop (env : SwarmEnv) (fuel : Nat) (st : OrchState)
    (h : ¬ st.nextIndex < env.plan.length) :
    claimLoop env (fuel + 1) st = (st, none) := by
  rw [claimLoop, dif_neg h]

theorem claimLoop_succ (env : SwarmEnv) (fuel : Nat) (st : OrchState)
    (h : st.nextIndex < env.plan.length) :
    claimLoop env (fuel + 1) st =
      match processItem env { st with nextIndex := st.nextIndex + 1 }
          (env.plan.get ⟨st.nextIndex, h⟩) st.nextIndex with
      | (st', some p) => (st', some p)
      | (st', none) => claimLoop env fuel st' := by
  rw [claimLoop, dif_pos h]

theorem claimLoop_inv (env : SwarmEnv) (fuel : Nat) :
    ∀ (st : OrchState) (pends : List PendingCall),
      InvCore env st pends →
      env.plan.length - st.nextIndex ≤ fuel →
      InvCore env (claimLoop env fuel st).1
        (pends ++ (claimLoop env fuel st).2.toList) ∧
      ((claimLoop env fuel st).2 = none →
        (claimLoop env fuel st).1.nextIndex = env.plan.length) ∧
      st.nextIndex ≤ (claimLoop env fuel st).1.nextIndex ∧
      st.tokensUsed ≤ (claimLoop env fuel st).1.tokensUsed ∧
      (∀ q ∈ (claimLoop env fuel st).2.toList, st.nextIndex ≤ q.itemIdx) := by
  induction fuel with
  | zero =>
    intro st pends inv hfuel
    have hnext : st.nextIndex = env.plan.length := by
      have := inv.nextLe
      omega
    rw [claimLoop_zero]
    refine ⟨by simpa using inv, fun _ => hnext, le_refl _, le_refl _, ?_⟩
    intro q hq
    simp at hq
  | succ fuel ih =>
    intro st pends inv hfuel
    by_cases h : st.nextIndex < env.plan.length
    · rw [claimLoop_succ env fuel st h]
      rcases processItem_cases env { st with nextIndex := st.nextIndex + 1 }
          (env.plan.get ⟨st.nextIndex, h⟩) st.nextIndex with ⟨hn, hg⟩ | ⟨p, hs, hd⟩
      · rcases hpi : processItem env { st with nextIndex := st.nextIndex + 1 }
            (env.plan.get ⟨st.nextIndex, h⟩) st.nextIndex with ⟨st2, np⟩
        rw [hpi] at hn hg
        simp only at hn hg
        subst hn
        dsimp only
        obtain ⟨inv2, hnl, htok⟩ := invCore_gate env st st2 pends h inv hg
        have hfuel2 : env.plan.length - st2.nextIndex ≤ fuel := by omega
        obtain ⟨ih1, ih2, ih3, ih4, ih5⟩ := ih st2 pends inv2 hfuel2
        refine ⟨ih1, ih2, by omega, by omega, ?_⟩
        intro q hq
        have := ih5 q hq
        omega
      · rcases hpi : processItem env { st with nextIndex := st.nextIndex + 1 }
            (env.plan.get ⟨st.nextIndex, h⟩) st.nextIndex with ⟨st2, np⟩
        rw [hpi] at hs hd
        simp only at hs hd
        subst hs
        dsimp only
        obtain ⟨inv2, hnl, htok, hpidx⟩ := invCore_dispatch env st st2 pends p h inv hd
        refine ⟨inv2, ?_, by omega, htok, ?_⟩
        · intro hcontra
          exact absurd hcontra (by simp)
        · intro q hq
          simp only [Option.toList_some, List.mem_singleton] at hq
          subst hq
          omega
    · rw [claimLoop_stop env fuel st h]
      have hnext : st.nextIndex = env.plan.length := by
        have := inv.nextLe
        omega
      refine ⟨by simpa using inv, fun _ => hnext, le_refl _, le_refl _, ?_⟩
      intro q hq
      simp at hq

end Swarm

namespace Swarm

theorem isTerminalB_toChildStatus (s : RunChildStatus) :
    isTerminalB s.toChildStatus = true := by
  cases s <;> rfl

theorem goodUpd_of_startedAt (env : SwarmEnv) (u : SwarmChildSummary)
    (hst : u.startedAt.isSome = true) (hco : u.completedAt.isSome = true) :
    GoodUpd env u := by
  refine ⟨fun _ => Or.inl ⟨hst, hco⟩, ?_, ?_⟩ <;>
    · intro hnone _
      rw [hnone] at hst
      exact absurd hst (by simp)

theorem goodUpd_running_of_startedAt (env : SwarmEnv) (u : SwarmChildSummary)
    (hst : u.startedAt.isSome = true) (hrun : u.status = ChildStatus.running) :
    GoodUpd env u := by
  refine ⟨fun hterm => ?_, ?_, ?_⟩
  · rw [hrun] at hterm
    exact absurd hterm (by decide)
  all_goals
    intro hnone _
    rw [hnone] at hst
    exact absurd hst (by simp)

theorem deliver_spec (env : SwarmEnv) (st : OrchState) (p : PendingCall)
    (hstart : p.summary.startedAt.isSome = true)
    (hplan : env.plan.get? p.itemIdx = some ⟨p.role, p.prompt⟩) :
    ((env.runChild p.itemIdx p.attempt).status = RunChildStatus.completed ∧
      (deliver env st p).2 = none ∧
      (deliver env st p).1.summaries = st.summaries ∧
      (∃ s, (deliver env st p).1.updates = st.updates ++ [s] ∧ GoodUpd env s) ∧
      (deliver env st p).1.calls = st.calls ∧
      (deliver env st p).1.processed = st.processed ++ [(p.itemIdx, p.attempt)] ∧
      (deliver env st p).1.outputs =
        st.outputs ++ (blockOf env p.itemIdx p.attempt).toList ∧
      (deliver env st p).1.nextIndex = st.nextIndex ∧
      (deliver env st p).1.tokensUsed = st.tokensUsed) ∨
    (p.attempt = 1 ∧ retryCond env p.itemIdx ∧
      (∃ p2, (deliver env st p).2 = some p2 ∧ p2.itemIdx = p.itemIdx ∧
        p2.attempt = 2 ∧ p2.summary.startedAt.isSome = true ∧
        p2.role = p.role ∧ p2.prompt = p.prompt) ∧
      (deliver env st p).1.summaries = st.summaries ∧
      (∃ s s2, (deliver env st p).1.updates = st.updates ++ [s] ++ [s2] ∧
        GoodUpd env s ∧ GoodUpd env s2) ∧
      (deliver env st p).1.calls = st.calls ++ [(p.itemIdx, 2)] ∧
      (deliver env st p).1.processed = st.processed ++ [(p.itemIdx, 1)] ∧
      (deliver env st p).1.outputs = st.outputs ∧
      blockOf env p.itemIdx 1 = none ∧
      (deliver env st p).1.nextIndex = st.nextIndex ∧
      (deliver env st p).1.tokensUsed = st.tokensUsed) ∨
    ((env.runChild p.itemIdx p.attempt).status ≠ RunChildStatus.completed ∧
      (p.attempt = 1 → ¬ retryCond env p.itemIdx) ∧
      (deliver env st p).2 = none ∧
      (deliver env st p).1.summaries = st.summaries ∧
      (∃ s, (deliver env st p).1.updates = st.updates ++ [s] ∧ GoodUpd env s) ∧
      (deliver env st p).1.calls = st.calls ∧
      (deliver env st p).1.processed = st.processed ++ [(p.itemIdx, p.attempt)] ∧
      (deliver env st p).1.outputs = st.outputs ∧
      blockOf env p.itemIdx p.attempt = none ∧
      (deliver env st p).1.nextIndex = st.nextIndex ∧
      (deliver env st p).1.tokensUsed = st.tokensUsed) := by
  unfold deliver
  by_cases hc : (env.runChild p.itemIdx p.attempt).status = RunChildStatus.completed
  · left
    rw [if_pos hc]
    unfold completeStep
    dsimp only
    have hblock : blockOf env p.itemIdx p.attempt =
        match (env.runChild p.itemIdx p.attempt).output with
        | some o => if o ≠ "" then
            some ("## " ++ p.role.toName ++ "\n" ++ o) else none
        | none => none := by
      rw [blockOf, hplan]
      dsimp only
      rw [if_pos hc]
    cases ho : (env.runChild p.itemIdx p.attempt).output with
    | none =>
      rw [ho] at hblock
      dsimp only at hblock ⊢
      refine ⟨hc, rfl, rfl, ⟨_, rfl, ?_⟩, rfl, rfl, ?_, rfl, rfl⟩
      · exact goodUpd_of_startedAt env _ hstart rfl
      · rw [hblock]
        simp [pushUpdate]
    | some o =>
      rw [ho] at hblock
      dsimp only at hblock ⊢
      by_cases ho2 : o = ""
      · subst ho2
        have hcond : ¬ (("" : String) ≠ "") := by simp
        rw [if_neg hcond] at hblock
        rw [if_neg hcond, if_neg hcond]
        refine ⟨hc, rfl, rfl, ⟨_, rfl, ?_⟩, rfl, rfl, ?_, rfl, rfl⟩
        · exact goodUpd_of_startedAt env _ hstart rfl
        · rw [hblock]
          simp [pushUpdate]
      · rw [if_pos ho2] at hblock
        rw [if_pos ho2, if_pos ho2]
        refine ⟨hc, rfl, rfl, ⟨_, rfl, ?_⟩, rfl, rfl, ?_, rfl, rfl⟩
        · exact goodUpd_of_startedAt env _ hstart rfl
        · rw [hblock]
          rfl
  · rw [if_neg hc]
    by_cases hr : p.attempt = 1 ∧
        (env.runChild p.itemIdx p.attempt).status = RunChildStatus.failed ∧
        ((env.runChild p.itemIdx p.attempt).transient.getD
          (isTransientError (env.runChild p.itemIdx p.attempt).error)) = true
    · right; left
      rw [if_pos hr]
      unfold retryStep
      dsimp only
      obtain ⟨ha1, hfail, htr⟩ := hr
      have hrc : retryCond env p.itemIdx := by
        rw [retryCond, transientOf]
        rw [ha1] at hfail htr
        exact ⟨hfail, htr⟩
      refine ⟨ha1, hrc, ⟨_, rfl, rfl, rfl, rfl, rfl, rfl⟩, rfl, ?_, rfl, rfl, rfl, ?_, rfl, rfl⟩
      · refine ⟨_, _, rfl, ?_, ?_⟩
        · exact goodUpd_running_of_startedAt env _ hstart rfl
        · exact goodUpd_running_of_startedAt env _ rfl rfl
      · rw [blockOf, hplan]
        dsimp only
        rw [ha1] at hfail
        rw [if_neg (by rw [hfail]; exact fun hh => RunChildStatus.noConfusion hh)]
    · right; right
      rw [if_neg hr]
      unfold terminalStep
      dsimp only
      refine ⟨hc, ?_, rfl, rfl, ?_, rfl, rfl, rfl, ?_, rfl, rfl⟩
      · intro ha1 hrc
        obtain ⟨hfail, htr⟩ := hrc
        rw [transientOf] at htr
        exact hr ⟨ha1, by rw [ha1]; exact hfail, by rw [ha1]; exact htr⟩
      · refine ⟨_, rfl, ?_⟩
        refine goodUpd_of_startedAt env _ hstart rfl
      · rw [blockOf, hplan]
        dsimp only
        rw [if_neg hc]

end Swarm

namespace Swarm

theorem append_singleton_eq (A B : List PendingCall) (p q : PendingCall)
    (h : A ++ [p] ++ B = [q]) : A = [] ∧ p = q ∧ B = [] := by
  have hl := congrArg List.length h
  simp only [List.length_append, List.length_singleton] at hl
  have hA : A = [] := List.eq_nil_of_length_eq_zero (by omega)
  have hB : B = [] := List.eq_nil_of_length_eq_zero (by omega)
  subst hA
  subst hB
  simp only [List.nil_append, List.append_nil] at h
  exact ⟨rfl, List.singleton_inj.mp h, rfl⟩

theorem phase_of_pending (env : SwarmEnv) (st : OrchState)
    (T R : List PendingCall) (p : PendingCall)
    (inv : InvCore env st (T ++ p :: R)) :
    pfilter T p.itemIdx = [] ∧ pfilter R p.itemIdx = [] ∧
    p.summary.startedAt.isSome = true ∧
    env.plan.get? p.itemIdx = some ⟨p.role, p.prompt⟩ ∧
    ((p.attempt = 1 ∧
        attemptsOf st.calls p.itemIdx = [1] ∧
        attemptsOf st.processed p.itemIdx = []) ∨
     (p.attempt = 2 ∧ retryCond env p.itemIdx ∧
        attemptsOf st.calls p.itemIdx = [1, 2] ∧
        attemptsOf st.processed p.itemIdx = [1])) := by
  have hpf : pfilter (T ++ p :: R) p.itemIdx =
      pfilter T p.itemIdx ++ [p] ++ pfilter R p.itemIdx := by
    rw [pfilter_append, pfilter_cons, if_pos rfl, List.append_assoc]
  rcases inv.phases p.itemIdx with ⟨hc, hpr, hpe⟩ | ⟨q, hc, hpr, hpe, hq⟩ |
      ⟨hc, hpr, hpe, hnr⟩ | ⟨q, hc, hpr, hpe, hq, hrc⟩ | ⟨hc, hpr, hpe, hrc⟩
  · rw [hpf] at hpe
    exact absurd hpe (by simp)
  · rw [hpf] at hpe
    obtain ⟨hT, hpq, hR⟩ := append_singleton_eq _ _ _ _ hpe
    subst hpq
    obtain ⟨hidx, hatt, hstart, hplan⟩ := hq
    exact ⟨hT, hR, hstart, hplan, Or.inl ⟨hatt, hc, hpr⟩⟩
  · rw [hpf] at hpe
    exact absurd hpe (by simp)
  · rw [hpf] at hpe
    obtain ⟨hT, hpq, hR⟩ := append_singleton_eq _ _ _ _ hpe
    subst hpq
    obtain ⟨hidx, hatt, hstart, hplan⟩ := hq
    exact ⟨hT, hR, hstart, hplan, Or.inr ⟨hatt, hrc, hc, hpr⟩⟩
  · rw [hpf] at hpe
    exact absurd hpe (by simp)

theorem filterMap_singleton_block (env : SwarmEnv) (c : Nat × Nat) :
    List.filterMap (fun c => blockOf env c.1 c.2) [c] = (blockOf env c.1 c.2).toList := by
  cases hb : blockOf env c.1 c.2 <;> simp [List.filterMap, hb]

theorem invCore_deliver_frame (env : SwarmEnv) (st st1 : OrchState)
    (T R : List PendingCall) (p : PendingCall) (npl : List PendingCall)
    (inv : InvCore env st (T ++ p :: R))
    (hsum : st1.summaries = st.summaries)
    (hupd : ∃ ext, st1.updates = st.updates ++ ext ∧ ∀ u ∈ ext, GoodUpd env u)
    (hcalls : ∃ cext, st1.calls = st.calls ++ cext ∧ ∀ c ∈ cext, c.1 = p.itemIdx)
    (hproc : ∃ pext, st1.processed = st.processed ++ pext ∧
      (∀ c ∈ pext, c.1 = p.itemIdx) ∧
      st1.outputs = st.outputs ++ pext.filterMap (fun c => blockOf env c.1 c.2))
    (hnext : st1.nextIndex = st.nextIndex)
    (hnp : ∀ q ∈ npl, q.itemIdx = p.itemIdx)
    (hphasei : ItemPhase env st1 (T ++ R ++ npl) p.itemIdx) :
    InvCore env st1 (T ++ R ++ npl) := by
  obtain ⟨ext, hu1, hu2⟩ := hupd
  obtain ⟨cext, hc1, hc2⟩ := hcalls
  obtain ⟨pext, hp1, hp2, hp3⟩ := hproc
  have hpmem : p ∈ T ++ p :: R := by simp
  have hplt : p.itemIdx < st.nextIndex := inv.pendsLt p hpmem
  refine ⟨?_, ?_, ?_, ?_, ?_, ?_, ?_, ?_, ?_, ?_⟩
  · rw [hsum, hnext]
    exact inv.sumLen
  · rw [hnext]
    exact inv.nextLe
  · rw [hsum, hnext]
    exact inv.roles
  · intro sm hsm
    rw [hsum] at hsm
    rw [hu1]
    exact List.mem_append_left _ (inv.subset sm hsm)
  · intro u hu
    rw [hu1] at hu
    rcases List.mem_append.mp hu with hu | hu
    · exact inv.updOk u hu
    · exact hu2 u hu
  · rw [hp3, hp1, List.filterMap_append, inv.outsEq]
  · intro c hc
    rw [hc1] at hc
    rw [hnext]
    rcases List.mem_append.mp hc with hc | hc
    · exact inv.callsLt c hc
    · rw [hc2 c hc]
      exact hplt
  · intro q hq
    rw [hnext]
    rcases List.mem_append.mp hq with hq | hq
    · rcases List.mem_append.mp hq with hq | hq
      · exact inv.pendsLt q (by simp [hq])
      · exact inv.pendsLt q (by simp [hq])
    · rw [hnp q hq]
      exact hplt
  · intro c hc
    rw [hp1] at hc
    rw [hnext]
    rcases List.mem_append.mp hc with hc | hc
    · exact inv.procLt c hc
    · rw [hp2 c hc]
      exact hplt
  · intro j
    by_cases hj : j = p.itemIdx
    · rw [hj]
      exact hphasei
    · refine itemPhase_congr2 env st st1 (T ++ p :: R) (T ++ R ++ npl) j ?_ ?_ ?_
        (inv.phases j)
      · rw [hc1]
        have hce : cext.filter (fun c => c.1 == j) = [] := by
          rw [List.filter_eq_nil_iff]
          intro c hcm
          rw [hc2 c hcm]
          simp only [beq_iff_eq]
          omega
        rw [attemptsOf, attemptsOf, List.filter_append, hce, List.append_nil]
      · rw [hp1, attemptsOf, attemptsOf, List.filter_append]
        have : pext.filter (fun c => c.1 == j) = [] := by
          rw [List.filter_eq_nil_iff]
          intro c hcm
          rw [hp2 c hcm]
          simp only [beq_iff_eq]
          omega
        rw [this, List.append_nil]
      · rw [pfilter_append, pfilter_append, pfilter_append, pfilter_cons]
        have h1 : pfilter npl j = [] := by
          rw [pfilter, List.filter_eq_nil_iff]
          intro q hqm
          rw [hnp q hqm]
          simp only [beq_iff_eq]
          omega
        rw [h1, List.append_nil, if_neg (by omega : ¬ p.itemIdx = j)]
        simp

end Swarm

namespace Swarm

theorem pfilter_self_singleton (p : PendingCall) : pfilter [p] p.itemIdx = [p] := by
  simp [pfilter, List.filter]

theorem invCore_deliver (env : SwarmEnv) (st : OrchState)
    (T R : List PendingCall) (p : PendingCall)
    (inv : InvCore env st (T ++ p :: R)) :
    InvCore env (deliver env st p).1 (T ++ R ++ (deliver env st p).2.toList) ∧
    (deliver env st p).1.nextIndex = st.nextIndex ∧
    st.tokensUsed ≤ (deliver env st p).1.tokensUsed := by
  obtain ⟨hT, hR, hstart, hplan, hph⟩ := phase_of_pending env st T R p inv
  have hemptyP : pfilter (T ++ R ++ ([] : List PendingCall)) p.itemIdx = [] := by
    rw [pfilter_append, pfilter_append, hT, hR]
    rfl
  rcases deliver_spec env st p hstart hplan with
    ⟨hc, hnone, hsum, hupd1, hcalls1, hproc1, houts1, hnext, htok⟩ |
    ⟨ha1, hrc, ⟨p2, hnp2, hp2i, hp2a, hp2s, hp2r, hp2p⟩, hsum, hupd2, hcalls2,
      hproc2, houts2, hblk, hnext, htok⟩ |
    ⟨hcne, hnoretry, hnone, hsum, hupd1, hcalls1, hproc1, houts1, hblk, hnext, htok⟩
  · -- completed result
    have hnl : (deliver env st p).2.toList = [] := by
      rw [hnone]
      rfl
    rw [hnl]
    obtain ⟨s, hs1, hs2⟩ := hupd1
    refine ⟨invCore_deliver_frame env st _ T R p [] inv hsum
      ⟨[s], hs1, ?_⟩ ⟨[], by rw [hcalls1, List.append_nil], ?_⟩
      ⟨[(p.itemIdx, p.attempt)], hproc1, ?_, ?_⟩ hnext ?_ ?_,
      hnext, le_of_eq htok.symm⟩
    · intro u hu
      rcases List.mem_singleton.mp hu with rfl
      exact hs2
    · intro c hcm
      simp at hcm
    · intro c hcm
      rcases List.mem_singleton.mp hcm with rfl
      rfl
    · rw [houts1, filterMap_singleton_block]
    · intro q hq
      simp at hq
    · rcases hph with ⟨ha1', hcA, hprA⟩ | ⟨ha2', hrc', hcA, hprA⟩
      · refine Or.inr (Or.inr (Or.inl ⟨?_, ?_, hemptyP, ?_⟩))
        · rw [hcalls1]
          exact hcA
        · rw [hproc1, attemptsOf_append, hprA, if_pos rfl, ha1']
          rfl
        · intro hrc2
          obtain ⟨hf, _⟩ := hrc2
          rw [ha1'] at hc
          rw [hf] at hc
          exact RunChildStatus.noConfusion hc
      · refine Or.inr (Or.inr (Or.inr (Or.inr ⟨?_, ?_, hemptyP, hrc'⟩)))
        · rw [hcalls1]
          exact hcA
        · rw [hproc1, attemptsOf_append, hprA, if_pos rfl, ha2']
          rfl
  · -- transient first-attempt failure: retry dispatched
    have hnl : (deliver env st p).2.toList = [p2] := by
      rw [hnp2]
      rfl
    rw [hnl]
    have hphA : p.attempt = 1 ∧ attemptsOf st.calls p.itemIdx = [1] ∧
        attemptsOf st.processed p.itemIdx = [] := by
      rcases hph with h | ⟨ha2', _⟩
      · exact h
      · omega
    obtain ⟨_, hcA, hprA⟩ := hphA
    obtain ⟨s, s2, hs1, hsg1, hsg2⟩ := hupd2
    refine ⟨invCore_deliver_frame env st _ T R p [p2] inv hsum
      ⟨[s] ++ [s2], by rw [hs1, List.append_assoc], ?_⟩
      ⟨[(p.itemIdx, 2)], hcalls2, ?_⟩
      ⟨[(p.itemIdx, 1)], hproc2, ?_, ?_⟩ hnext ?_ ?_,
      hnext, le_of_eq htok.symm⟩
    · intro u hu
      rcases List.mem_append.mp hu with hu | hu
      · rcases List.mem_singleton.mp hu with rfl
        exact hsg1
      · rcases List.mem_singleton.mp hu with rfl
        exact hsg2
    · intro c hcm
      rcases List.mem_singleton.mp hcm with rfl
      rfl
    · intro c hcm
      rcases List.mem_singleton.mp hcm with rfl
      rfl
    · rw [houts2, filterMap_singleton_block]
      dsimp only
      rw [hblk]
      simp
    · intro q hq
      rcases List.mem_singleton.mp hq with rfl
      exact hp2i
    · refine Or.inr (Or.inr (Or.inr (Or.inl ⟨p2, ?_, ?_, ?_, ?_, hrc⟩)))
      · rw [hcalls2, attemptsOf_append, hcA, if_pos rfl]
        rfl
      · rw [hproc2, attemptsOf_append, hprA, if_pos rfl]
        rfl
      · rw [pfilter_append, pfilter_append, hT, hR]
        have : pfilter [p2] p.itemIdx = [p2] := by
          rw [← hp2i]
          exact pfilter_self_singleton p2
        rw [this]
        rfl
      · refine ⟨hp2i, hp2a, hp2s, ?_⟩
        rw [hp2r, hp2p]
        exact hplan
  · -- terminal result
    have hnl : (deliver env st p).2.toList = [] := by
      rw [hnone]
      rfl
    rw [hnl]
    obtain ⟨s, hs1, hs2⟩ := hupd1
    refine ⟨invCore_deliver_frame env st _ T R p [] inv hsum
      ⟨[s], hs1, ?_⟩ ⟨[], by rw [hcalls1, List.append_nil], ?_⟩
      ⟨[(p.itemIdx, p.attempt)], hproc1, ?_, ?_⟩ hnext ?_ ?_,
      hnext, le_of_eq htok.symm⟩
    · intro u hu
      rcases List.mem_singleton.mp hu with rfl
      exact hs2
    · intro c hcm
      simp at hcm
    · intro c hcm
      rcases List.mem_singleton.mp hcm with rfl
      rfl
    · rw [houts1, filterMap_singleton_block]
      dsimp only
      rw [hblk]
      simp
    · intro q hq
      simp at hq
    · rcases hph with ⟨ha1', hcA, hprA⟩ | ⟨ha2', hrc', hcA, hprA⟩
      · refine Or.inr (Or.inr (Or.inl ⟨?_, ?_, hemptyP, hnoretry ha1'⟩))
        · rw [hcalls1]
          exact hcA
        · rw [hproc1, attemptsOf_append, hprA, if_pos rfl, ha1']
          rfl
      · refine Or.inr (Or.inr (Or.inr (Or.inr ⟨?_, ?_, hemptyP, hrc'⟩)))
        · rw [hcalls1]
          exact hcA
        · rw [hproc1, attemptsOf_append, hprA, if_pos rfl, ha2']
          rfl

end Swarm

namespace Swarm

theorem workerResume_inv (env : SwarmEnv) (st : OrchState)
    (T R : List PendingCall) (p : PendingCall)
    (inv : InvCore env st (T ++ p :: R)) :
    InvCore env (workerResume env (env.plan.length + 1) st p).1
      (T ++ R ++ (workerResume env (env.plan.length + 1) st p).2.toList) ∧
    st.nextIndex ≤ (workerResume env (env.plan.length + 1) st p).1.nextIndex ∧
    st.tokensUsed ≤ (workerResume env (env.plan.length + 1) st p).1.tokensUsed ∧
    (T ++ R ++ (workerResume env (env.plan.length + 1) st p).2.toList = [] →
      (workerResume env (env.plan.length + 1) st p).1.nextIndex = env.plan.length) := by
  obtain ⟨d1, d2, d3⟩ := invCore_deliver env st T R p inv
  unfold workerResume
  rcases hd : deliver env st p with ⟨st1, np⟩
  rw [hd] at d1 d2 d3
  dsimp only at d1 d2 d3 ⊢
  cases np with
  | some p2 =>
    dsimp only
    refine ⟨d1, le_of_eq d2.symm, d3, ?_⟩
    intro hcontra
    exact absurd hcontra (by simp)
  | none =>
    dsimp only
    have d1' : InvCore env st1 (T ++ R) := by simpa using d1
    obtain ⟨c1, c2, c3, c4, c5⟩ := claimLoop_inv env (env.plan.length + 1) st1 (T ++ R)
      d1' (by have := d1'.nextLe; omega)
    refine ⟨c1, ?_, le_trans d3 c4, ?_⟩
    · rw [← d2]
      exact c3
    · intro hemp
      rcases List.append_eq_nil.mp hemp with ⟨_, hnp⟩
      apply c2
      cases hnp2 : (claimLoop env (env.plan.length + 1) st1).2 with
      | none => rfl
      | some q =>
        rw [hnp2] at hnp
        exact absurd hnp (by simp)

theorem stepRun_inv (env : SwarmEnv) (s s' : RunState) (k : Nat)
    (inv : InvCore env s.core s.pends) (h : stepRun env s k = some s') :
    InvCore env s'.core s'.pends ∧
    s.core.nextIndex ≤ s'.core.nextIndex ∧
    s.core.tokensUsed ≤ s'.core.tokensUsed ∧
    (s'.pends = [] → s'.core.nextIndex = env.plan.length) := by
  unfold stepRun at h
  cases hd : s.pends.drop k with
  | nil =>
    rw [hd] at h
    exact absurd h (by simp)
  | cons p rest =>
    rw [hd] at h
    dsimp only at h
    have hsplit : s.pends = s.pends.take k ++ p :: rest := by
      conv_lhs => rw [← List.take_append_drop k s.pends]
      rw [hd]
    have inv2 : InvCore env s.core (s.pends.take k ++ p :: rest) := by
      rw [← hsplit]
      exact inv
    obtain ⟨w1, w2, w3, w4⟩ :=
      workerResume_inv env s.core (s.pends.take k) rest p inv2
    obtain rfl := Option.some.inj h
    exact ⟨w1, w2, w3, w4⟩

theorem runAux_inv (env : SwarmEnv) (sched : List Nat) :
    ∀ (s s' : RunState), InvCore env s.core s.pends →
    (s.pends = [] → s.core.nextIndex = env.plan.length) →
    runAux env sched s = some s' →
    InvCore env s'.core s'.pends ∧ s'.pends = [] ∧
    s'.core.nextIndex = env.plan.length ∧
    s.core.tokensUsed ≤ s'.core.tokensUsed := by
  induction sched with
  | nil =>
    intro s s' inv hdone h
    unfold runAux at h
    by_cases hp : s.pends.isEmpty
    · rw [if_pos hp] at h
      obtain rfl := Option.some.inj h
      have hpe : s.pends = [] := List.isEmpty_iff.mp hp
      exact ⟨inv, hpe, hdone hpe, le_refl _⟩
    · rw [if_neg hp] at h
      exact absurd h (by simp)
  | cons k sched ih =>
    intro s s' inv hdone h
    unfold runAux at h
    cases hs : stepRun env s k with
    | none =>
      rw [hs] at h
      exact absurd h (by simp)
    | some s1 =>
      rw [hs] at h
      obtain ⟨i1, i2, i3, i4⟩ := stepRun_inv env s s1 k inv hs
      obtain ⟨j1, j2, j3, j4⟩ := ih s1 s' i1 i4 h
      exact ⟨j1, j2, j3, le_trans i3 j4⟩

theorem invCore_initCore (env : SwarmEnv) : InvCore env initCore [] := by
  refine ⟨rfl, Nat.zero_le _, rfl, ?_, ?_, rfl, ?_, ?_, ?_, ?_⟩
  · intro sm hsm
    exact absurd hsm (by simp [initCore])
  · intro u hu
    exact absurd hu (by simp [initCore])
  · intro c hc
    exact absurd hc (by simp [initCore])
  · intro p hp
    exact absurd hp (by simp)
  · intro c hc
    exact absurd hc (by simp [initCore])
  · intro i
    exact Or.inl ⟨rfl, rfl, rfl⟩

theorem initWorkers_inv (env : SwarmEnv) (n : Nat) :
    ∀ (st : OrchState) (pends0 : List PendingCall), InvCore env st pends0 →
    InvCore env (initWorkers env n st).1 (pends0 ++ (initWorkers env n st).2) ∧
    st.nextIndex ≤ (initWorkers env n st).1.nextIndex ∧
    st.tokensUsed ≤ (initWorkers env n st).1.tokensUsed ∧
    (1 ≤ n → (initWorkers env n st).2 = [] →
      (initWorkers env n st).1.nextIndex = env.plan.length) := by
  induction n with
  | zero =>
    intro st pends0 inv
    have h0 : initWorkers env 0 st = (st, []) := rfl
    rw [h0]
    dsimp only
    refine ⟨by simpa using inv, le_refl _, le_refl _, ?_⟩
    intro h1
    omega
  | succ n ih =>
    intro st pends0 inv
    obtain ⟨c1, c2, c3, c4, c5⟩ := claimLoop_inv env (env.plan.length + 1) st pends0
      inv (by have := inv.nextLe; omega)
    rcases hr : claimLoop env (env.plan.length + 1) st with ⟨st1, np⟩
    rw [hr] at c1 c2 c3 c4
    dsimp only at c1 c2 c3 c4
    have hiw : initWorkers env (n + 1) st =
        ((initWorkers env n st1).1, np.toList ++ (initWorkers env n st1).2) := by
      rw [initWorkers, hr]
    obtain ⟨j1, j2, j3, j4⟩ := ih st1 (pends0 ++ np.toList) c1
    rw [hiw]
    dsimp only
    refine ⟨by rw [← List.append_assoc]; exact j1, le_trans c3 j2, le_trans c4 j3, ?_⟩
    intro _ hemp
    rcases List.append_eq_nil.mp hemp with ⟨hnp, hrest⟩
    have hnone : np = none := by
      cases np with
      | none => rfl
      | some q => exact absurd hnp (by simp)
    have hlen : st1.nextIndex = env.plan.length := c2 hnone
    have hle := j1.nextLe
    omega

theorem initRun_inv (env : SwarmEnv) :
    InvCore env (initRun env).core (initRun env).pends ∧
    ((initRun env).pends = [] → (initRun env).core.nextIndex = env.plan.length) := by
  obtain ⟨j1, j2, j3, j4⟩ :=
    initWorkers_inv env env.numWorkers initCore [] (invCore_initCore env)
  unfold initRun
  dsimp only
  refine ⟨by simpa using j1, ?_⟩
  intro hemp
  exact j4 (numWorkers_pos env) hemp

theorem runSwarm_inv (env : SwarmEnv) (sched : List Nat) (s' : RunState)
    (h : runSwarm env sched = some s') :
    InvCore env s'.core s'.pends ∧ s'.pends = [] ∧
    s'.core.nextIndex = env.plan.length := by
  obtain ⟨i1, i2⟩ := initRun_inv env
  obtain ⟨j1, j2, j3, _⟩ := runAux_inv env sched (initRun env) s' i1 i2 h
  exact ⟨j1, j2, j3⟩

end Swarm

namespace Swarm

/-! ## Routing selector: map lookup versus first-match lookup -/

theorem reverse_find?_of_subsingleton (l : List ConnectedProvider)
    (p : ConnectedProvider → Bool) (h : (l.filter p).length ≤ 1) :
    l.reverse.find? p = l.find? p := by
  induction l with
  | nil => rfl
  | cons a t ih =>
    rw [List.reverse_cons, List.find?_append]
    by_cases hpa : p a
    · have hft : t.filter p = [] := by
        rw [List.filter_cons_of_pos hpa] at h
        simp only [List.length_cons] at h
        exact List.eq_nil_of_length_eq_zero (by omega)
      have hmem : ∀ x ∈ t, ¬ p x = true := by
        intro x hx hpx
        have : x ∈ t.filter p := List.mem_filter.mpr ⟨hx, hpx⟩
        rw [hft] at this
        exact absurd this (by simp)
      have hnone : t.find? p = none := List.find?_eq_none.mpr hmem
      have hnoner : t.reverse.find? p = none := by
        rw [List.find?_eq_none]
        intro x hx
        exact hmem x (List.mem_reverse.mp hx)
      rw [hnoner]
      simp [List.find?, hpa, hnone]
    · have h2 : (t.filter p).length ≤ 1 := by
        rw [List.filter_cons_of_neg hpa] at h
        exact h
      have hsingle : List.find? p [a] = none := by
        simp [List.find?, hpa]
      rw [hsingle, ih h2, Option.or_none]
      simp [List.find?, hpa]

theorem nodup_filter_length_le_one (l : List ConnectedProvider)
    (h : (l.map (fun p => p.providerId)).Nodup) (y : String) :
    (l.filter (fun p => p.providerId == y)).length ≤ 1 := by
  induction l with
  | nil => simp
  | cons a t ih =>
    rw [List.map_cons, List.nodup_cons] at h
    obtain ⟨hna, hnt⟩ := h
    by_cases hay : a.providerId == y
    · rw [List.filter_cons, if_pos hay]
      have hft : t.filter (fun p => p.providerId == y) = [] := by
        rw [List.filter_eq_nil_iff]
        intro x hx hpx
        apply hna
        rw [List.mem_map]
        refine ⟨x, hx, ?_⟩
        rw [beq_iff_eq] at hay hpx
        rw [hpx, hay]
      rw [hft]
      simp
    · rw [List.filter_cons, if_neg hay]
      exact ih hnt

theorem findSome?_congr (f g : String → Option SwarmRouteSelection)
    (l : List String) (h : ∀ a ∈ l, f a = g a) :
    l.findSome? f = l.findSome? g := by
  induction l with
  | nil => rfl
  | cons a t ih =>
    rw [List.findSome?_cons, List.findSome?_cons, h a (by simp)]
    cases g a with
    | some r => rfl
    | none => exact ih (fun x hx => h x (by simp [hx]))

theorem preferredRoute_eq_spec (role : SwarmRole) (provs : List ConnectedProvider)
    (h : ((provs.filter isProviderReady).map (fun p => p.providerId)).Nodup) :
    preferredRoute role provs = specPreferredRoute role provs := by
  unfold preferredRoute specPreferredRoute
  apply findSome?_congr
  intro pid _
  rw [providersByIdGet,
    reverse_find?_of_subsingleton _ _ (nodup_filter_length_le_one _ h pid)]

end Swarm

namespace Swarm

/-! ## Runs in which every item is stopped by the same gate -/

theorem claimLoop_gated (env : SwarmEnv) (P : SwarmChildSummary → Prop)
    (hgate : ∀ (st : OrchState) (item : SwarmChildPlan) (i : Nat),
      ∃ sm, processItem env st item i =
        (pushSummary { st with clock := st.clock + 1, idCounter := st.idCounter + 1 } sm,
          none) ∧ P sm) :
    ∀ (fuel : Nat) (st : OrchState), env.plan.length - st.nextIndex ≤ fuel →
    (claimLoop env fuel st).2 = none ∧
    (claimLoop env fuel st).1.calls = st.calls ∧
    (claimLoop env fuel st).1.processed = st.processed ∧
    (claimLoop env fuel st).1.outputs = st.outputs ∧
    ∀ sm ∈ (claimLoop env fuel st).1.summaries, sm ∈ st.summaries ∨ P sm := by
  intro fuel
  induction fuel with
  | zero =>
    intro st _
    rw [claimLoop_zero]
    exact ⟨rfl, rfl, rfl, rfl, fun sm hsm => Or.inl hsm⟩
  | succ fuel ih =>
    intro st hfuel
    by_cases h : st.nextIndex < env.plan.length
    · rw [claimLoop_succ env fuel st h]
      obtain ⟨sm, hpi, hP⟩ := hgate { st with nextIndex := st.nextIndex + 1 }
        (env.plan.get ⟨st.nextIndex, h⟩) st.nextIndex
      rw [hpi]
      dsimp only
      obtain ⟨j1, j2, j3, j4, j5⟩ := ih (pushSummary { st with nextIndex := st.nextIndex + 1, clock := st.clock + 1, idCounter := st.idCounter + 1 } sm) (by simp only [pushSummary]; omega)
      refine ⟨j1, j2, j3, j4, ?_⟩
      intro x hx
      rcases j5 x hx with hx2 | hx2
      · simp only [pushSummary] at hx2
        rcases List.mem_append.mp hx2 with hx3 | hx3
        · exact Or.inl hx3
        · rcases List.mem_singleton.mp hx3 with rfl
          exact Or.inr hP
      · exact Or.inr hx2
    · rw [claimLoop_stop env fuel st h]
      exact ⟨rfl, rfl, rfl, rfl, fun sm hsm => Or.inl hsm⟩

theorem initWorkers_gated (env : SwarmEnv) (P : SwarmChildSummary → Prop)
    (hgate : ∀ (st : OrchState) (item : SwarmChildPlan) (i : Nat),
      ∃ sm, processItem env st item i =
        (pushSummary { st with clock := st.clock + 1, idCounter := st.idCounter + 1 } sm,
          none) ∧ P sm) :
    ∀ (n : Nat) (st : OrchState),
    (initWorkers env n st).2 = [] ∧
    (initWorkers env n st).1.calls = st.calls ∧
    (initWorkers env n st).1.processed = st.processed ∧
    (initWorkers env n st).1.outputs = st.outputs ∧
    ∀ sm ∈ (initWorkers env n st).1.summaries, sm ∈ st.summaries ∨ P sm := by
  intro n
  induction n with
  | zero =>
    intro st
    exact ⟨rfl, rfl, rfl, rfl, fun sm hsm => Or.inl hsm⟩
  | succ n ih =>
    intro st
    obtain ⟨c1, c2, c3, c4, c5⟩ := claimLoop_gated env P hgate (env.plan.length + 1) st
      (by omega)
    rcases hr : claimLoop env (env.plan.length + 1) st with ⟨st1, np⟩
    rw [hr] at c1 c2 c3 c4 c5
    dsimp only at c1 c2 c3 c4 c5
    subst c1
    have hiw : initWorkers env (n + 1) st =
        ((initWorkers env n st1).1, (initWorkers env n st1).2) := by
      rw [initWorkers, hr]
      rfl
    rw [hiw]
    obtain ⟨j1, j2, j3, j4, j5⟩ := ih st1
    refine ⟨j1, by rw [j2, c2], by rw [j3, c3], by rw [j4, c4], ?_⟩
    intro sm hsm
    rcases j5 sm hsm with hx | hx
    · exact c5 sm hx
    · exact Or.inr hx

theorem runAux_frozen (env : SwarmEnv) :
    ∀ (sched : List Nat) (s0 s : RunState), s0.pends = [] →
    runAux env sched s0 = some s → s = s0 := by
  intro sched
  induction sched with
  | nil =>
    intro s0 s hp h
    unfold runAux at h
    rw [if_pos (List.isEmpty_iff.mpr hp)] at h
    exact (Option.some.inj h).symm
  | cons k sched ih =>
    intro s0 s hp h
    unfold runAux at h
    have hstep : stepRun env s0 k = none := by
      unfold stepRun
      rw [hp, List.drop_nil]
    rw [hstep] at h
    exact absurd h (by simp)

theorem processItem_token_gate (env : SwarmEnv) (st : OrchState)
    (item : SwarmChildPlan) (i : Nat)
    (htv : tokenBudgetVal env = some 100) (hwv : wallBudgetVal env = none)
    (hab : ∀ n, env.abortedAt n = false) :
    processItem env st item i =
      (pushSummary { st with clock := st.clock + 1, idCounter := st.idCounter + 1 }
        (gateSummary env item.role ChildStatus.cancelled
          (env.genId st.idCounter) tokenMsgStr), none) := by
  unfold processItem
  rw [hab st.clock]
  simp only [Bool.false_eq_true, if_false]
  unfold processItemWall
  rw [hwv]
  dsimp only
  unfold processItemTok
  rw [htv]
  dsimp only
  have h128 : 128 ≤ estimateTokens item.prompt := le_max_left _ _
  rw [if_pos (by omega : st.tokensUsed + estimateTokens item.prompt > 100)]
  rfl

theorem processItem_abort_gate (env : SwarmEnv) (st : OrchState)
    (item : SwarmChildPlan) (i : Nat) (hab : ∀ n, env.abortedAt n = true) :
    processItem env st item i =
      (pushSummary { st with clock := st.clock + 1, idCounter := st.idCounter + 1 }
        (gateSummary env item.role ChildStatus.cancelled
          (env.genId st.idCounter) cancelMsgStr), none) := by
  unfold processItem
  rw [hab st.clock]
  simp only [if_true]
  rfl

end Swarm

namespace Swarm

/-! ## Token-counter monotonicity along any run -/

theorem processItem_tokens_mono (env : SwarmEnv) (st : OrchState)
    (item : SwarmChildPlan) (i : Nat) :
    st.tokensUsed ≤ (processItem env st item i).1.tokensUsed := by
  rcases processItem_cases env st item i with ⟨_, hg⟩ | ⟨p, _, hd⟩
  · obtain ⟨sm, _, _, _, _, _, _, h7, _⟩ := hg
    exact h7
  · obtain ⟨sm, sm2, _, _, _, _, _, _, h7, _⟩ := hd
    exact h7

theorem claimLoop_tokens_mono (env : SwarmEnv) :
    ∀ (fuel : Nat) (st : OrchState),
    st.tokensUsed ≤ (claimLoop env fuel st).1.tokensUsed := by
  intro fuel
  induction fuel with
  | zero =>
    intro st
    exact le_refl _
  | succ fuel ih =>
    intro st
    by_cases h : st.nextIndex < env.plan.length
    · rw [claimLoop_succ env fuel st h]
      have hm := processItem_tokens_mono env { st with nextIndex := st.nextIndex + 1 }
        (env.plan.get ⟨st.nextIndex, h⟩) st.nextIndex
      rcases hpi : processItem env { st with nextIndex := st.nextIndex + 1 }
          (env.plan.get ⟨st.nextIndex, h⟩) st.nextIndex with ⟨st2, np⟩
      rw [hpi] at hm
      dsimp only at hm
      cases np with
      | some p => exact hm
      | none =>
        dsimp only
        exact le_trans hm (ih st2)
    · rw [claimLoop_stop env fuel st h]

theorem deliver_tokens (env : SwarmEnv) (st : OrchState) (p : PendingCall) :
    (deliver env st p).1.tokensUsed = st.tokensUsed := by
  unfold deliver completeStep retryStep terminalStep
  dsimp only
  by_cases hc : (env.runChild p.itemIdx p.attempt).status = RunChildStatus.completed
  · rw [if_pos hc]
    cases ho : (env.runChild p.itemIdx p.attempt).output with
    | none => rfl
    | some o =>
      dsimp only
      by_cases ho2 : o = ""
      · rw [if_neg (fun hn => hn ho2)]
        rfl
      · rw [if_pos ho2]
        rfl
  · rw [if_neg hc]
    by_cases hr : p.attempt = 1 ∧
        (env.runChild p.itemIdx p.attempt).status = RunChildStatus.failed ∧
        ((env.runChild p.itemIdx p.attempt).transient.getD
          (isTransientError (env.runChild p.itemIdx p.attempt).error)) = true
    · rw [if_pos hr]
      rfl
    · rw [if_neg hr]
      rfl

theorem runAux_tokens_mono (env : SwarmEnv) :
    ∀ (sched : List Nat) (s0 s : RunState), runAux env sched s0 = some s →
    s0.core.tokensUsed ≤ s.core.tokensUsed := by
  intro sched
  induction sched with
  | nil =>
    intro s0 s h
    unfold runAux at h
    by_cases hp : s0.pends.isEmpty
    · rw [if_pos hp] at h
      obtain rfl := Option.some.inj h
      exact le_refl _
    · rw [if_neg hp] at h
      exact absurd h (by simp)
  | cons k sched ih =>
    intro s0 s h
    unfold runAux at h
    cases hs : stepRun env s0 k with
    | none =>
      rw [hs] at h
      exact absurd h (by simp)
    | some s1 =>
      rw [hs] at h
      have hstep : s0.core.tokensUsed ≤ s1.core.tokensUsed := by
        unfold stepRun at hs
        cases hd : s0.pends.drop k with
        | nil =>
          rw [hd] at hs
          exact absurd hs (by simp)
        | cons p rest =>
          rw [hd] at hs
          dsimp only at hs
          obtain rfl := Option.some.inj hs
          dsimp only
          unfold workerResume
          rcases hde : deliver env s0.core p with ⟨st1, np⟩
          have hdt : st1.tokensUsed = s0.core.tokensUsed := by
            have := deliver_tokens env s0.core p
            rw [hde] at this
            exact this
          cases np with
          | some p2 => exact le_of_eq hdt.symm
          | none =>
            dsimp only
            exact le_trans (le_of_eq hdt.symm)
              (claimLoop_tokens_mono env (env.plan.length + 1) st1)
      exact le_trans hstep (ih s1 s h)

end Swarm

namespace Swarm

/-! ## Claim theorems -/

/-- C1: the claim "partial is true iff at least one child's terminal status
is not completed; when every child completes, partial is false" is refuted
by the code.  The source pushes the initial summary object and then only
rebinds a local variable, so the `childSummaries` array never sees a
terminal status; `partial = summaries.some(s => s.status !== 'completed')`
is evaluated over the stale entries and comes out `true` even in a run
whose every terminal transition (observed on the update sink) is
`completed`.  This theorem evaluates the code at such a failing input:
one child, run-child returns `completed`, yet `partialFlag = true`. -/
theorem swarm_partial_flag_stale_summaries :
    (runSwarmOrchestrator envAllOk [0]).map SwarmOrchestratorResult.partialFlag =
      some true ∧
    (runSwarm envAllOk [0]).map
      (fun s => s.core.updates.any (fun u => u.status == ChildStatus.completed)) =
      some true ∧
    (runSwarm envAllOk [0]).map
      (fun s => s.core.updates.all
        (fun u => !isTerminalB u.status || (u.status == ChildStatus.completed))) =
      some true := by
  refine ⟨by decide, by decide, by decide⟩

/-- C2, counterexample: in a pre-aborted run the (terminal, `cancelled`)
gate summary carries no `completedAt`, so "every terminal child summary
carries a completedAt timestamp" is false at this concrete input. -/
theorem swarm_terminal_completedAt_cex :
    (runSwarm envPreAbort []).map
      (fun s => s.core.updates.all
        (fun u => !isTerminalB u.status || u.completedAt.isSome)) = some false := by
  decide

/-- C2, amended: in every run, a terminal summary on the update stream
either carries both `startedAt` and `completedAt` (all terminal summaries
produced by the attempt loop do), or carries neither and is a gate summary
with status `cancelled` (pre-start cancellation, wall or token budget) or
`failed` (no route); gate summaries omit `completedAt` as well as
`startedAt`. -/
theorem swarm_terminal_timestamps (env : SwarmEnv) (sched : List Nat)
    (s : RunState) (h : runSwarm env sched = some s) :
    ∀ u ∈ s.core.updates, isTerminalB u.status = true →
      (u.startedAt.isSome = true ∧ u.completedAt.isSome = true) ∨
      (u.startedAt = none ∧ u.completedAt = none ∧
        (u.status = ChildStatus.cancelled ∨ u.status = ChildStatus.failed)) := by
  obtain ⟨inv, _, _⟩ := runSwarm_inv env sched s h
  intro u hu hterm
  exact (inv.updOk u hu).1 hterm

/-- Witness for C2's amended theorem at the base run's completed update. -/
theorem swarm_terminal_timestamps_witness :
    ((sAllOk.core.updates.getD 2 dummySummary).startedAt.isSome = true ∧
      (sAllOk.core.updates.getD 2 dummySummary).completedAt.isSome = true) ∨
    ((sAllOk.core.updates.getD 2 dummySummary).startedAt = none ∧
      (sAllOk.core.updates.getD 2 dummySummary).completedAt = none ∧
      ((sAllOk.core.updates.getD 2 dummySummary).status = ChildStatus.cancelled ∨
        (sAllOk.core.updates.getD 2 dummySummary).status = ChildStatus.failed)) :=
  swarm_terminal_timestamps envAllOk [0] sAllOk (by rfl)
    (sAllOk.core.updates.getD 2 dummySummary)
    (by
      have hlen : 2 < sAllOk.core.updates.length := by decide
      rw [List.getD_eq_getElem sAllOk.core.updates dummySummary hlen]
      exact List.getElem_mem hlen)
    (by decide)

/-- C3, counterexample: with `maxAgents = 1` the plan is truncated to one
item, so "a single worker processes all 3 plan items" is false at this
concrete input: the run yields one child summary, not three. -/
theorem swarm_maxagents_one_cex :
    (runSwarmOrchestrator envAllOk [0]).map
      (fun r => r.childSummaries.length) = some 1 ∧
    (runSwarm envAllOk [0]).map
      (fun s => decide (s.core.summaries.length = 3)) = some false := by
  refine ⟨by decide, by decide⟩

/-- C3, amended: when `maxAgents = 1` there is a single worker, the plan is
the fixed 3-role plan truncated to 1 item, and the total number of
run-child invocations over the whole run is at most 2 (hence at most 6). -/
theorem swarm_maxagents_one_truncated (env : SwarmEnv) (sched : List Nat)
    (s : RunState) (h1 : env.swarm.maxAgents = some 1)
    (h : runSwarm env sched = some s) :
    env.numWorkers = 1 ∧ env.plan.length = 1 ∧ s.core.calls.length ≤ 2 := by
  have hma : env.maxAgents = 1 := by
    unfold SwarmEnv.maxAgents
    rw [h1]
    rfl
  have hlen : env.plan.length = 1 := by rw [plan_length, hma]
  obtain ⟨inv, hpe, hnl⟩ := runSwarm_inv env sched s h
  refine ⟨by rw [numWorkers_eq, hma], hlen, ?_⟩
  have hidx : ∀ c ∈ s.core.calls, c.1 = 0 := by
    intro c hc
    have hlt := inv.callsLt c hc
    rw [hnl, hlen] at hlt
    omega
  have hfe : s.core.calls.filter (fun c => c.1 == 0) = s.core.calls := by
    rw [List.filter_eq_self]
    intro c hc
    rw [hidx c hc]
    rfl
  have hca : s.core.calls.length = (attemptsOf s.core.calls 0).length := by
    rw [attemptsOf, List.length_map, hfe]
  rw [hca]
  have hp0 : pfilter s.pends 0 = [] := by
    rw [hpe]
    rfl
  rcases inv.phases 0 with ⟨hc, _, _⟩ | ⟨q, hc, _, hpe0, _⟩ | ⟨hc, _, _, _⟩ |
      ⟨q, hc, _, hpe0, _, _⟩ | ⟨hc, _, _, _⟩
  · rw [hc]
    simp
  · rw [hp0] at hpe0
    exact absurd hpe0.symm (by simp)
  · rw [hc]
    simp
  · rw [hp0] at hpe0
    exact absurd hpe0.symm (by simp)
  · rw [hc]
    simp

/-- Witness for C3's amended theorem at the base one-agent environment. -/
theorem swarm_maxagents_one_truncated_witness :
    envAllOk.numWorkers = 1 ∧ envAllOk.plan.length = 1 ∧
      sAllOk.core.calls.length ≤ 2 :=
  swarm_maxagents_one_truncated envAllOk [0] sAllOk rfl (by rfl)

end Swarm

namespace Swarm

/-- C4, counterexample: with `maxEstimatedTokens = 100` every estimate is
at least 128, and the gate tests `used + estimate > budget` even for the
first item, so no item at all is attempted: run-child is never invoked
(`calls = []`) although the plan has 3 items — refuting "only the first
dispatched item is attempted (run-child is invoked for it)". -/
theorem swarm_token_budget_cex :
    (runSwarm envTokenBudget []).map (fun s => s.core.calls.isEmpty) = some true ∧
    (runSwarm envTokenBudget []).map (fun s => s.core.summaries.length) = some 3 := by
  refine ⟨by decide, by decide⟩

/-- C4, amended: with `maxEstimatedTokens = 100` (and no wall budget and no
abort), every prompt estimates at least 128 > 100 tokens, so **no** item is
attempted — run-child is never invoked — and every plan item is skipped
with status `cancelled` and the token-budget message. -/
theorem swarm_token_budget_all_skipped (env : SwarmEnv) (sched : List Nat)
    (s : RunState) (hb : env.swarm.budget = some ⟨some 100, none⟩)
    (hab : ∀ n, env.abortedAt n = false)
    (h : runSwarm env sched = some s) :
    s.core.calls = [] ∧ s.core.summaries.length = env.plan.length ∧
    ∀ sm ∈ s.core.summaries,
      sm.status = ChildStatus.cancelled ∧ sm.error = some tokenMsgStr := by
  have htv : tokenBudgetVal env = some 100 := by
    unfold tokenBudgetVal
    rw [hb]
    rfl
  have hwv : wallBudgetVal env = none := by
    unfold wallBudgetVal
    rw [hb]
  have hgate : ∀ (st : OrchState) (item : SwarmChildPlan) (i : Nat),
      ∃ sm, processItem env st item i =
        (pushSummary { st with clock := st.clock + 1, idCounter := st.idCounter + 1 } sm,
          none) ∧
        (sm.status = ChildStatus.cancelled ∧ sm.error = some tokenMsgStr) :=
    fun st item i =>
      ⟨gateSummary env item.role ChildStatus.cancelled (env.genId st.idCounter) tokenMsgStr,
        processItem_token_gate env st item i htv hwv hab, rfl, rfl⟩
  obtain ⟨iw1, iw2, iw3, iw4, iw5⟩ :=
    initWorkers_gated env _ hgate env.numWorkers initCore
  have hpi : (initRun env).pends = [] := iw1
  have hfroz := runAux_frozen env sched (initRun env) s hpi h
  subst hfroz
  obtain ⟨inv, _, hnl⟩ := runSwarm_inv env sched (initRun env) h
  refine ⟨?_, by rw [inv.sumLen, hnl], ?_⟩
  · exact iw2
  · intro sm hsm
    rcases iw5 sm hsm with hx | hx
    · exact absurd hx (by simp [initCore])
    · exact hx

/-- Witness for C4's amended theorem at the concrete 100-token budget run. -/
theorem swarm_token_budget_all_skipped_witness :
    sTokenBudget.core.calls = [] ∧
    (sTokenBudget.core.summaries.getD 0 dummySummary).status =
      ChildStatus.cancelled ∧
    (sTokenBudget.core.summaries.getD 0 dummySummary).error = some tokenMsgStr := by
  have h := swarm_token_budget_all_skipped envTokenBudget [] sTokenBudget rfl
    (fun _ => rfl) (by rfl)
  have hlen : 0 < sTokenBudget.core.summaries.length := by decide
  have hmem : sTokenBudget.core.summaries.getD 0 dummySummary ∈
      sTokenBudget.core.summaries := by
    rw [List.getD_eq_getElem sTokenBudget.core.summaries dummySummary hlen]
    exact List.getElem_mem hlen
  exact ⟨h.1, (h.2.2 _ hmem).1, (h.2.2 _ hmem).2⟩

/-- C5: per plan item, the run-child capability is invoked at most twice,
and an attempt-2 invocation exists exactly when attempt 1 was invoked, its
result was `failed`, and the failure was judged transient — the explicit
`transient` flag if present, else the case-insensitive fixed-pattern match
of the error text (`transientOf`, built on `isTransientError`).  Any other
first result (non-transient failure, `timed_out`, `cancelled`) and any
second attempt are terminal: there is no further invocation. -/
theorem swarm_retry_policy (env : SwarmEnv) (sched : List Nat) (s : RunState)
    (h : runSwarm env sched = some s) :
    ∀ i : Nat, (attemptsOf s.core.calls i).length ≤ 2 ∧
      ((i, 2) ∈ s.core.calls ↔
        ((i, 1) ∈ s.core.calls ∧
          (env.runChild i 1).status = RunChildStatus.failed ∧
          transientOf (env.runChild i 1) = true)) := by
  obtain ⟨inv, hpe, _⟩ := runSwarm_inv env sched s h
  intro i
  have hp0 : pfilter s.pends i = [] := by
    rw [hpe]
    rfl
  have h2 : (i, 2) ∈ s.core.calls ↔ 2 ∈ attemptsOf s.core.calls i :=
    (mem_attemptsOf _ _ _).symm
  have h1 : (i, 1) ∈ s.core.calls ↔ 1 ∈ attemptsOf s.core.calls i :=
    (mem_attemptsOf _ _ _).symm
  rcases inv.phases i with ⟨hc, _, _⟩ | ⟨q, _, _, hpe0, _⟩ | ⟨hc, _, _, hnr⟩ |
      ⟨q, _, _, hpe0, _, _⟩ | ⟨hc, _, _, hrc⟩
  · refine ⟨by rw [hc]; simp, ?_, ?_⟩
    · intro hmem
      have := h2.mp hmem
      rw [hc] at this
      exact absurd this (by simp)
    · rintro ⟨hmem, _⟩
      have := h1.mp hmem
      rw [hc] at this
      exact absurd this (by simp)
  · rw [hp0] at hpe0
    exact absurd hpe0.symm (by simp)
  · refine ⟨by rw [hc]; simp, ?_, ?_⟩
    · intro hmem
      have := h2.mp hmem
      rw [hc] at this
      exact absurd this (by simp)
    · rintro ⟨_, hfail, htr⟩
      exact absurd (show retryCond env i from ⟨hfail, htr⟩) hnr
  · rw [hp0] at hpe0
    exact absurd hpe0.symm (by simp)
  · obtain ⟨hfail, htr⟩ := hrc
    refine ⟨by rw [hc]; simp, ?_, ?_⟩
    · intro _
      refine ⟨h1.mpr ?_, hfail, htr⟩
      rw [hc]
      simp
    · intro _
      apply h2.mpr
      rw [hc]
      simp

/-- Witness for C5 at the transient-retry run (first attempt fails with a
`timeout` error text, attempt 2 is invoked). -/
theorem swarm_retry_policy_witness :
    (attemptsOf sRetry.core.calls 0).length ≤ 2 ∧
    ((0, 2) ∈ sRetry.core.calls ↔
      ((0, 1) ∈ sRetry.core.calls ∧
        (envRetry.runChild 0 1).status = RunChildStatus.failed ∧
        transientOf (envRetry.runChild 0 1) = true)) :=
  swarm_retry_policy envRetry [0, 0] sRetry (by rfl) 0

/-- C6: when the ready providers carry distinct provider ids (the snapshot
is keyed by provider), the source's `selectSwarmRoute` coincides with the
selector spelled out by the spec — consider only connected providers with
a selected model; first ready match on the role's preference list, else
the fallback when both of its fields are present (truthy), else the first
ready provider in input order, else `none` — and, being a pure function,
it is deterministic: identical inputs give identical results.  (The
distinct-ids hypothesis pins down which record supplies the model when one
provider id occurs twice: the source's `Map` keeps the last, the spec's
words do not say.) -/
theorem selectSwarmRoute_refines_spec (role : SwarmRole)
    (provs : List ConnectedProvider) (fb : Option ParentModelRef)
    (hnd : ((provs.filter isProviderReady).map (fun p => p.providerId)).Nodup) :
    selectSwarmRoute role provs fb = selectSwarmRouteSpec role provs fb ∧
    selectSwarmRoute role provs fb = selectSwarmRoute role provs fb := by
  refine ⟨?_, rfl⟩
  unfold selectSwarmRoute selectSwarmRouteSpec
  rw [preferredRoute_eq_spec role provs hnd]

/-- Witness for C6 at a concrete snapshot. -/
theorem selectSwarmRoute_refines_spec_witness :
    selectSwarmRoute SwarmRole.coder [provOpenAI]
        (some ⟨some "openai", some "openai/gpt-5"⟩) =
      selectSwarmRouteSpec SwarmRole.coder [provOpenAI]
        (some ⟨some "openai", some "openai/gpt-5"⟩) ∧
    selectSwarmRoute SwarmRole.coder [provOpenAI]
        (some ⟨some "openai", some "openai/gpt-5"⟩) =
      selectSwarmRoute SwarmRole.coder [provOpenAI]
        (some ⟨some "openai", some "openai/gpt-5"⟩) :=
  selectSwarmRoute_refines_spec SwarmRole.coder [provOpenAI]
    (some ⟨some "openai", some "openai/gpt-5"⟩) (by decide)

end Swarm

namespace Swarm

theorem processItemRoute_tokens (env : SwarmEnv) (st : OrchState)
    (item : SwarmChildPlan) (i : Nat) :
    (processItemRoute env st item i).1.tokensUsed = st.tokensUsed := by
  unfold processItemRoute
  cases hr : selectSwarmRoute item.role env.readyProviders env.parentModel with
  | none => rfl
  | some route => rfl

/-- C7: the dispatch-time budget gates.  (1) If the wall budget is truthy
and the elapsed time since run start has met or exceeded it, the item is
skipped with a `cancelled` wall-budget summary, run-child is not invoked
(no call logged) and no tokens are charged — the wall gate runs first,
regardless of the token state.  (2) Otherwise, if the token budget is
truthy and the cumulative total plus this item's estimate
`max(128, ceil(len/4))` strictly exceeds it, the item is skipped with a
`cancelled` token-budget summary, again with no call and no charge.
(3)/(4) An item that passes the gates charges its estimate to the
cumulative total unconditionally (with or without a token budget, and even
if routing then fails).  (5) The cumulative total never decreases across
any run segment: estimates are never refunded. -/
theorem swarm_budget_gate_order (env : SwarmEnv) :
    (∀ (st : OrchState) (item : SwarmChildPlan) (i : Nat) (w : Nat),
      wallBudgetVal env = some w →
      w ≤ env.nowAt st.clock - env.wallStart →
      (processItemWall env st item i).2 = none ∧
      (processItemWall env st item i).1.calls = st.calls ∧
      (processItemWall env st item i).1.tokensUsed = st.tokensUsed ∧
      (∃ sm, (processItemWall env st item i).1.summaries = st.summaries ++ [sm] ∧
        sm.status = ChildStatus.cancelled ∧ sm.error = some wallMsgStr)) ∧
    (∀ (st : OrchState) (item : SwarmChildPlan) (i : Nat) (b : Nat),
      tokenBudgetVal env = some b →
      st.tokensUsed + estimateTokens item.prompt > b →
      (processItemTok env st item i).2 = none ∧
      (processItemTok env st item i).1.calls = st.calls ∧
      (processItemTok env st item i).1.tokensUsed = st.tokensUsed ∧
      (∃ sm, (processItemTok env st item i).1.summaries = st.summaries ++ [sm] ∧
        sm.status = ChildStatus.cancelled ∧ sm.error = some tokenMsgStr)) ∧
    (∀ (st : OrchState) (item : SwarmChildPlan) (i : Nat) (b : Nat),
      tokenBudgetVal env = some b →
      ¬ (st.tokensUsed + estimateTokens item.prompt > b) →
      (processItemTok env st item i).1.tokensUsed =
        st.tokensUsed + estimateTokens item.prompt) ∧
    (∀ (st : OrchState) (item : SwarmChildPlan) (i : Nat),
      tokenBudgetVal env = none →
      (processItemTok env st item i).1.tokensUsed =
        st.tokensUsed + estimateTokens item.prompt) ∧
    (∀ (sched : List Nat) (s0 s : RunState),
      runAux env sched s0 = some s →
      s0.core.tokensUsed ≤ s.core.tokensUsed) := by
  refine ⟨?_, ?_, ?_, ?_, ?_⟩
  · intro st item i w hw hge
    unfold processItemWall
    rw [hw]
    dsimp only
    rw [if_pos hge]
    exact ⟨rfl, rfl, rfl, _, rfl, rfl, rfl⟩
  · intro st item i b ht hgt
    unfold processItemTok
    rw [ht]
    dsimp only
    rw [if_pos hgt]
    exact ⟨rfl, rfl, rfl, _, rfl, rfl, rfl⟩
  · intro st item i b ht hngt
    unfold processItemTok
    rw [ht]
    dsimp only
    rw [if_neg hngt]
    exact processItemRoute_tokens env _ item i
  · intro st item i ht
    unfold processItemTok
    rw [ht]
    dsimp only
    exact processItemRoute_tokens env _ item i
  · intro sched s0 s h
    exact runAux_tokens_mono env sched s0 s h

/-- Witness for C7's wall gate at a concrete state: budget 5 ms, elapsed
100 ms. -/
theorem swarm_budget_gate_order_witness :
    (processItemWall envWallBudget initCore planItemW 0).2 = none ∧
    (processItemWall envWallBudget initCore planItemW 0).1.calls = initCore.calls ∧
    (processItemWall envWallBudget initCore planItemW 0).1.tokensUsed =
      initCore.tokensUsed ∧
    (∃ sm, (processItemWall envWallBudget initCore planItemW 0).1.summaries =
      initCore.summaries ++ [sm] ∧ sm.status = ChildStatus.cancelled ∧
      sm.error = some wallMsgStr) :=
  (swarm_budget_gate_order envWallBudget).1 initCore planItemW 0 5 (by rfl) (by decide)

/-- C8: `combinedOutput` is the trimmed `"\n\n"`-join of exactly the blocks
contributed by `completed` run-child results with truthy output — each the
role heading `"## role\n"` followed by the full output — in the order the
results were processed (completion order, not plan order); and if the
cancellation signal is aborted throughout, every child is `cancelled` and
`combinedOutput` is the empty string. -/
theorem swarm_combined_output (env : SwarmEnv) (sched : List Nat) (s : RunState)
    (h : runSwarm env sched = some s) :
    (mkResult s.core).combinedOutput =
      trimStr (String.intercalate "\n\n"
        (s.core.processed.filterMap (fun c => blockOf env c.1 c.2))) ∧
    ((∀ n, env.abortedAt n = true) →
      (∀ sm ∈ s.core.summaries, sm.status = ChildStatus.cancelled) ∧
      (mkResult s.core).combinedOutput = "") := by
  obtain ⟨inv, hpe, hnl⟩ := runSwarm_inv env sched s h
  constructor
  · show trimStr (String.intercalate "\n\n" s.core.outputs) = _
    rw [inv.outsEq]
  · intro hab
    have hgate : ∀ (st : OrchState) (item : SwarmChildPlan) (i : Nat),
        ∃ sm, processItem env st item i =
          (pushSummary { st with clock := st.clock + 1, idCounter := st.idCounter + 1 } sm,
            none) ∧ sm.status = ChildStatus.cancelled :=
      fun st item i =>
        ⟨gateSummary env item.role ChildStatus.cancelled (env.genId st.idCounter) cancelMsgStr,
          processItem_abort_gate env st item i hab, rfl⟩
    obtain ⟨iw1, iw2, iw3, iw4, iw5⟩ :=
      initWorkers_gated env _ hgate env.numWorkers initCore
    have hfroz := runAux_frozen env sched (initRun env) s iw1 h
    subst hfroz
    constructor
    · intro sm hsm
      rcases iw5 sm hsm with hx | hx
      · exact absurd hx (by simp [initCore])
      · exact hx
    · show trimStr (String.intercalate "\n\n" (initRun env).core.outputs) = ""
      have ho : (initRun env).core.outputs = [] := iw4
      rw [ho]
      rfl

/-- Witness for C8 at the pre-aborted run: the join formula holds and the
combined output is empty. -/
theorem swarm_combined_output_witness :
    (mkResult sPreAbort.core).combinedOutput =
      trimStr (String.intercalate "\n\n"
        (sPreAbort.core.processed.filterMap (fun c => blockOf envPreAbort c.1 c.2))) ∧
    (mkResult sPreAbort.core).combinedOutput = "" := by
  have h := swarm_combined_output envPreAbort [] sPreAbort (by rfl)
  exact ⟨h.1, (h.2 (fun _ => rfl)).2⟩

/-- C9: every run yields exactly one `childSummaries` entry per plan item —
the lengths agree, the roles agree position by position — and the plan
length is `maxAgents` clamped to `[1, 3]` (the fixed 3-role plan
truncated). -/
theorem swarm_summary_per_item (env : SwarmEnv) (sched : List Nat) (s : RunState)
    (h : runSwarm env sched = some s) :
    s.core.summaries.length = env.plan.length ∧
    env.plan.length = (max 1 (min (env.swarm.maxAgents.getD 3) 3)).toNat ∧
    s.core.summaries.map (fun sm => sm.role) = env.plan.map (fun it => it.role) := by
  obtain ⟨inv, _, hnl⟩ := runSwarm_inv env sched s h
  refine ⟨by rw [inv.sumLen, hnl], by rw [plan_length]; rfl, ?_⟩
  have hr := inv.roles
  rw [hnl, List.take_length] at hr
  exact hr

/-- Witness for C9 at the base run. -/
theorem swarm_summary_per_item_witness :
    sAllOk.core.summaries.length = envAllOk.plan.length ∧
    envAllOk.plan.length = (max 1 (min (envAllOk.swarm.maxAgents.getD 3) 3)).toNat ∧
    sAllOk.core.summaries.map (fun sm => sm.role) =
      envAllOk.plan.map (fun it => it.role) :=
  swarm_summary_per_item envAllOk [0] sAllOk (by rfl)

/-- C10: a budget field that is present but zero is falsy in the gate's
truthiness test, so the corresponding gate can never fire: no pre-start
summary (the skipped items, recognisable by their absent `startedAt`) ever
carries the wall-budget (resp. token-budget) message when `maxWallMs = 0`
(resp. `maxEstimatedTokens = 0`). -/
theorem swarm_zero_budget_ignored (env : SwarmEnv) (sched : List Nat)
    (s : RunState) (h : runSwarm env sched = some s) :
    ((env.swarm.budget.bind SwarmBudget.maxWallMs = some 0) →
      ∀ u ∈ s.core.updates, u.startedAt = none → u.error ≠ some wallMsgStr) ∧
    ((env.swarm.budget.bind SwarmBudget.maxEstimatedTokens = some 0) →
      ∀ u ∈ s.core.updates, u.startedAt = none → u.error ≠ some tokenMsgStr) := by
  obtain ⟨inv, _, _⟩ := runSwarm_inv env sched s h
  constructor
  · intro hz u hu hst herr
    have hw := (inv.updOk u hu).2.1 hst herr
    have hnone : wallBudgetVal env = none := by
      unfold wallBudgetVal
      cases hbud : env.swarm.budget with
      | none => rfl
      | some b =>
        dsimp only
        have hzb : b.maxWallMs = some 0 := by
          rw [hbud] at hz
          exact hz
        rw [hzb]
        simp
    rw [hnone] at hw
    exact absurd hw (by simp)
  · intro hz u hu hst herr
    have hw := (inv.updOk u hu).2.2 hst herr
    have hnone : tokenBudgetVal env = none := by
      unfold tokenBudgetVal
      cases hbud : env.swarm.budget with
      | none => rfl
      | some b =>
        dsimp only
        have hzb : b.maxEstimatedTokens = some 0 := by
          rw [hbud] at hz
          exact hz
        rw [hzb]
        simp
    rw [hnone] at hw
    exact absurd hw (by simp)

/-- Witness for C10 at the zero-budget run, instantiated at the queued
update (`startedAt = none`). -/
theorem swarm_zero_budget_ignored_witness :
    (sZeroBudget.core.updates.getD 0 dummySummary).error ≠ some wallMsgStr ∧
    (sZeroBudget.core.updates.getD 0 dummySummary).error ≠ some tokenMsgStr := by
  have h := swarm_zero_budget_ignored envZeroBudget [0] sZeroBudget (by rfl)
  have hlen : 0 < sZeroBudget.core.updates.length := by decide
  have hmem : sZeroBudget.core.updates.getD 0 dummySummary ∈
      sZeroBudget.core.updates := by
    rw [List.getD_eq_getElem sZeroBudget.core.updates dummySummary hlen]
    exact List.getElem_mem hlen
  have hst : (sZeroBudget.core.updates.getD 0 dummySummary).startedAt = none := by
    decide
  exact ⟨h.1 rfl _ hmem hst, h.2 rfl _ hmem hst⟩

end Swarm
